import Mathlib

/-!
Verification of the resource-aware orchestration core of OpenClaw Lite.

This file gives a shallow embedding, in Lean 4, of the stateful decision
logic of the repository: the budget ladder and special-state router of
`src/lizard-brain.ts`, the session cache with debounced persistence of
`src/index.ts`, the reminder queue and background tick of
`src/lizard-brain.ts`, and the calendar digest scheduler and pending
contact tags of `src/calendar.ts`.  JavaScript numbers that take part in
ratio comparisons are modelled as rationals; epoch-millisecond timestamps
as integers; the UTC calendar date of a timestamp (the code uses
`toISOString().split("T")[0]`) as its UTC day number.  Theorems about the
embedded definitions follow after all definitions.
-/

/-- Configuration record for the lizard-brain module
(`LizardBrainConfig` in src/lizard-brain.ts). -/
structure LizardBrainConfig where
  model : String
  maxTokens : Nat
  maxHistory : Nat
  dailyTokenBudget : Int
  lizardInterval : Int
deriving DecidableEq

/-- The mutable lizard-brain scalars used by the router and the budget
ladder (`lizardBrain` in src/lizard-brain.ts): mood registers and the
token counters `tokens.used` / `tokens.budget`. -/
structure BrainState where
  energy : ℚ
  stress : ℚ
  curiosity : ℚ
  used : ℚ
  budget : ℚ
deriving DecidableEq

/-- Embedding of `initLizardBrain` (src/lizard-brain.ts:19-22): stores the config and
copies `config.dailyTokenBudget` into `lizardBrain.tokens.budget`.  The
source performs no validation of the budget value. -/
def initLizardBrain (config : LizardBrainConfig) (st : BrainState) : BrainState :=
  { st with budget := (config.dailyTokenBudget : ℚ) }

/-- The initial lizard-brain state (src/lizard-brain.ts:72-90). -/
def initialLizardBrain : BrainState :=
  { energy := 100, stress := 0, curiosity := 50, used := 0, budget := 100000 }

/-- Fixed message returned when the token budget is exhausted
(src/lizard-brain.ts:246). -/
def exhaustedMessage : String :=
  "🔋 I\x27ve run out of thinking power for today. My brain resets at midnight! Simple questions I can still handle."

/-- Fixed message returned when token usage is at 95% or more
(src/lizard-brain.ts:251). -/
def lowTokensMessage : String :=
  "🔋 Running really low on thinking power... I can only handle simple requests right now."

/-- Fixed message returned on high stress (src/lizard-brain.ts:257). -/
def breathMessage : String :=
  "🧘 Taking a breath... I\x27ve been working hard. Give me a moment and try again."

/-- Embedding of `checkSpecialStates` (src/lizard-brain.ts:241-261).  Returns the
override message, if any, together with the updated state: the high
stress branch mutates `lizardBrain.stress -= 10` before returning. -/
def checkSpecialStates (st : BrainState) : Option String × BrainState :=
  let usage := st.used / st.budget
  if 1 ≤ usage then
    (some exhaustedMessage, st)
  else if (95 : ℚ)/100 ≤ usage then
    (some lowTokensMessage, st)
  else if 80 ≤ st.stress then
    (some breathMessage, { st with stress := st.stress - 10 })
  else
    (none, st)

/-- The quick-pattern loop shared by both call sites in `tryQuickResponse`
(src/lizard-brain.ts:292-304).  Pattern matching against the regular
expression table is abstracted by `pat`, the response of the first
matching pattern whose handler returned non-null; a successful quick
response costs one unit of energy, clamped at zero. -/
def tryPatterns (st : BrainState) (pat : Option String) : Option String × BrainState :=
  match pat with
  | some r => (some r, { st with energy := max 0 (st.energy - 1) })
  | none => (none, st)

/-- Embedding of `tryQuickResponse` (src/lizard-brain.ts:263-307).  The argument `pat`
abstracts the quick-pattern table: the response of the first matching
pattern with a non-null handler result, or `none` when no pattern
matches.  In the exhausted branch the pattern loop runs without the
energy decrement; otherwise, when the post-`checkSpecialStates` stress is
still at least 80, the special message is returned; else control falls
through to the ordinary pattern loop. -/
def tryQuickResponse (st : BrainState) (pat : Option String) : Option String × BrainState :=
  let res := checkSpecialStates st
  match res.1 with
  | some sp =>
    let st1 := res.2
    let usage := st1.used / st1.budget
    if 1 ≤ usage then
      match pat with
      | some r => (some r, st1)
      | none => (some sp, st1)
    else if 80 ≤ st1.stress then
      (some sp, st1)
    else
      tryPatterns st1 pat
  | none => tryPatterns res.2 pat

/-- Result record of `getBudgetAwareParams`
(`BudgetAwareParams` in src/lizard-brain.ts:313-318). -/
structure BudgetAwareParams where
  model : String
  maxTokens : Nat
  maxHistory : Nat
  shouldBlock : Bool
deriving DecidableEq

/-- Embedding of `getBudgetAwareParams` (src/lizard-brain.ts:320-370): the budget
ladder, a pure function of the usage ratio and the configuration. -/
def getBudgetAwareParams (cfg : LizardBrainConfig) (st : BrainState) : BudgetAwareParams :=
  let usage := st.used / st.budget
  if 1 ≤ usage then
    { model := cfg.model, maxTokens := cfg.maxTokens, maxHistory := cfg.maxHistory,
      shouldBlock := true }
  else if (9 : ℚ)/10 ≤ usage then
    { model := "claude-3-haiku-20240307", maxTokens := 500, maxHistory := 5,
      shouldBlock := false }
  else if (3 : ℚ)/4 ≤ usage then
    { model := cfg.model, maxTokens := 1024, maxHistory := 10, shouldBlock := false }
  else if (1 : ℚ)/2 ≤ usage then
    { model := cfg.model, maxTokens := cfg.maxTokens, maxHistory := 20, shouldBlock := false }
  else
    { model := cfg.model, maxTokens := cfg.maxTokens, maxHistory := cfg.maxHistory,
      shouldBlock := false }

/-- A pending reminder (`Reminder` in src/lizard-brain.ts:28-33). -/
structure Reminder where
  chatId : String
  message : String
  dueAt : Int
  setAt : Int
deriving DecidableEq

/-- The reminder-enqueueing side effect of the "remind me in N unit"
quick pattern (src/lizard-brain.ts:216-237): `dueAt` is the current time
plus the parsed delay in minutes. -/
def scheduleReminder (chatId message : String) (delayMinutes now : Int) : Reminder :=
  { chatId := chatId, message := message, dueAt := now + delayMinutes * 60 * 1000, setAt := now }

/-- Outcome of the reminder step of one tick: the ordered delivery
attempts (reminder paired with the delivery result reported by the
messaging channel) and the queue left behind. -/
structure ReminderTick where
  attempts : List (Reminder × Bool)
  remaining : List Reminder
deriving DecidableEq

/-- The reminder-processing step of `runLizardLoop`
(src/lizard-brain.ts:453-469): partition the queue by `dueAt ≤ now`,
attempt delivery of every due reminder in order — a delivery failure is
caught per reminder and does not stop the loop — and keep only the
reminders with `dueAt > now`.  `deliver` reports whether the
messaging-channel send succeeded or threw. -/
def processReminders (deliver : Reminder → Bool) (now : Int) (pending : List Reminder) :
    ReminderTick :=
  let dueReminders := pending.filter (fun r => decide (r.dueAt ≤ now))
  { attempts := dueReminders.map (fun r => (r, deliver r)),
    remaining := pending.filter (fun r => decide (now < r.dueAt)) }

/-- Trace of one execution of the background tick body, recording which
steps got to run and the error, if any, that escaped the tick. -/
structure TickTrace where
  remindersAttempted : Nat
  onTickRan : Bool
  cleanupRan : Bool
  responsesTrimmed : Bool
  error : Option String
deriving DecidableEq

/-- Step sequencing of `runLizardLoop` (src/lizard-brain.ts:427-489) with
respect to exceptions.  Steps 1-2 (mood regulation, budget rollover) are
pure arithmetic and cannot throw.  In step 3 each reminder delivery is
wrapped in its own try/catch, so delivery outcomes (`deliver`) cannot
abort the tick.  Step 3.5 is `await _onTick()` and step 3.6 is
`_onCleanup()`: neither call is guarded by a try/catch in the source, so
an error thrown there (`onTickResult` / `onCleanupResult`) propagates out
of `runLizardLoop` and the remaining steps of that tick do not run. -/
def runLizardTick (deliver : Reminder → Bool) (now : Int) (pending : List Reminder)
    (onTickResult : Option String) (onCleanupResult : Option String) :
    TickTrace × List Reminder :=
  let t := processReminders deliver now pending
  match onTickResult with
  | some e =>
    ({ remindersAttempted := t.attempts.length, onTickRan := true, cleanupRan := false,
       responsesTrimmed := false, error := some e }, t.remaining)
  | none =>
    match onCleanupResult with
    | some e =>
      ({ remindersAttempted := t.attempts.length, onTickRan := true, cleanupRan := true,
         responsesTrimmed := false, error := some e }, t.remaining)
    | none =>
      ({ remindersAttempted := t.attempts.length, onTickRan := true, cleanupRan := true,
         responsesTrimmed := true, error := none }, t.remaining)

/-- Model of `Map.prototype.set` / object-key assignment on a JavaScript
map with string keys: replace the value in place if the key is present,
otherwise append the entry. -/
def mapSet {α : Type} (m : List (String × α)) (k : String) (v : α) : List (String × α) :=
  if m.any (fun p => decide (p.1 = k)) then
    m.map (fun p => if p.1 = k then (p.1, v) else p)
  else m ++ [(k, v)]

/-- Model of `Map.prototype.delete`: remove every entry with the key
(a JavaScript map holds it at most once). -/
def mapDelete {α : Type} (m : List (String × α)) (k : String) : List (String × α) :=
  m.filter (fun p => decide (p.1 ≠ k))

/-- A pending contact-tag continuation (the value type of
`pendingContactTag` in src/calendar.ts:23). -/
structure PendingTag where
  eventId : String
  expiresAt : Int
deriving DecidableEq

/-- Embedding of `setPendingContactTag` (src/calendar.ts:25-27): store
the event id with a 120-second expiry. -/
def setPendingContactTag (now : Int) (m : List (String × PendingTag))
    (chatId eventId : String) : List (String × PendingTag) :=
  mapSet m chatId { eventId := eventId, expiresAt := now + 120000 }

/-- Embedding of `consumePendingContactTag` (src/calendar.ts:29-37): an
absent or expired entry is deleted and yields `none`; a live entry is
deleted and its event id returned. -/
def consumePendingContactTag (now : Int) (m : List (String × PendingTag)) (chatId : String) :
    Option String × List (String × PendingTag) :=
  match m.lookup chatId with
  | none => (none, mapDelete m chatId)
  | some pending =>
    if pending.expiresAt < now then (none, mapDelete m chatId)
    else (some pending.eventId, mapDelete m chatId)

/-- Role of a stored conversation message. -/
inductive Role where
  | user
  | assistant
deriving DecidableEq

/-- One entry of a session history (`{role, content, timestamp}` in
src/index.ts). -/
structure SessionMessage where
  role : Role
  content : String
  timestamp : Int
deriving DecidableEq

/-- A per-conversation session (`Session` in src/index.ts): ordered
message history plus the last-activity timestamp used for eviction. -/
structure Session where
  messages : List SessionMessage
  lastActivity : Int
deriving DecidableEq

/-- The fresh session default-constructed with `lastActivity := 0`; used
only as the out-of-range default of heap reads. -/
def defaultSession : Session :=
  { messages := [], lastActivity := 0 }

/-- Session-store configuration: `MAX_CACHED_SESSIONS` (the constant 20
at src/index.ts:2306) and `CONFIG.maxHistory` (default 50,
src/index.ts:46). -/
structure SessConfig where
  maxCachedSessions : Nat
  maxHistory : Nat
deriving DecidableEq

/-- The session-store state.  JavaScript object identity matters here —
the debounced flush closure captures the session object itself, and
later `addToSession` calls mutate that same object — so sessions live in
an explicit heap addressed by allocation index: `cache` maps a
conversation id to a heap address (`sessions` in src/index.ts:2304, in
`Map` insertion order), `pendingSaves` models the debounce guard set
(src/index.ts:2305), each timer `(fireAt, chatId, addr)` is a scheduled
`setTimeout` callback holding a reference to the session object, and
`disk` is the durable store (one JSON file per conversation id). -/
structure SessionStore where
  heap : List Session
  cache : List (String × Nat)
  pendingSaves : List String
  timers : List (Int × String × Nat)
  disk : List (String × Session)
deriving DecidableEq

/-- The store at process start: nothing cached, nothing pending;
`disk` may hold previously persisted sessions. -/
def emptySessionStore : SessionStore :=
  { heap := [], cache := [], pendingSaves := [], timers := [], disk := [] }

/-- Dereference a heap address. -/
def heapGet (heap : List Session) (addr : Nat) : Session :=
  (heap[addr]?).getD defaultSession

/-- Stable insertion placing `x` after every element whose key is not
greater; building a sort from it keeps the original order of equal keys,
as `Array.prototype.sort` guarantees. -/
def insertByKey {α : Type} (key : α → Int) (x : α) : List α → List α
  | [] => [x]
  | y :: ys => if key y ≤ key x then y :: insertByKey key x ys else x :: y :: ys

/-- Stable ascending sort by an integer key, modelling
`Array.prototype.sort` with the comparator `a - b`. -/
def stableSortByKey {α : Type} (key : α → Int) (l : List α) : List α :=
  l.foldl (fun acc x => insertByKey key x acc) []

/-- Embedding of `evictOldSessions` (src/index.ts:2313-2324): when the
cache exceeds the capacity, sort the entries by the session's
`lastActivity` ascending and delete the ids of the first
`size - MAX_CACHED_SESSIONS` entries from the cache (the heap and the
durable copy are untouched). -/
def evictOldSessions (cfg : SessConfig) (st : SessionStore) : SessionStore :=
  if st.cache.length ≤ cfg.maxCachedSessions then st
  else
    let sorted := stableSortByKey (fun e => (heapGet st.heap e.2).lastActivity) st.cache
    let toEvict := (sorted.take (st.cache.length - cfg.maxCachedSessions)).map Prod.fst
    { st with cache := st.cache.filter (fun e => decide (e.1 ∉ toEvict)) }

/-- Embedding of `loadSession` (src/index.ts:2326-2347): a cache hit
returns the cached object; a miss reads the durable copy (absence — an
`ENOENT` — falls back to a fresh session with `lastActivity = now`),
allocates it, inserts it at the end of the cache and runs eviction.
Returns the heap address of the session object. -/
def loadSession (cfg : SessConfig) (now : Int) (chatId : String) (st : SessionStore) :
    Nat × SessionStore :=
  match st.cache.lookup chatId with
  | some addr => (addr, st)
  | none =>
    let session := (st.disk.lookup chatId).getD { messages := [], lastActivity := now }
    let addr := st.heap.length
    let st1 := { st with heap := st.heap ++ [session], cache := st.cache ++ [(chatId, addr)] }
    (addr, evictOldSessions cfg st1)

/-- Embedding of `saveSession` (src/index.ts:2349-2364): if a save for
this id is already pending, do nothing; otherwise mark it pending and
schedule a write of the captured session object one second from now. -/
def saveSession (now : Int) (chatId : String) (addr : Nat) (st : SessionStore) : SessionStore :=
  if chatId ∈ st.pendingSaves then st
  else
    { st with pendingSaves := st.pendingSaves ++ [chatId],
              timers := st.timers ++ [(now + 1000, chatId, addr)] }

/-- The mutation `addToSession` performs on the session object
(src/index.ts:2366-2374): push the new message, trim the history to the
last `CONFIG.maxHistory` entries, refresh `lastActivity`. -/
def appendMessage (cfg : SessConfig) (now : Int) (role : Role) (content : String)
    (s : Session) : Session :=
  let messages := s.messages ++ [{ role := role, content := content, timestamp := now }]
  let messages :=
    if cfg.maxHistory < messages.length then messages.drop (messages.length - cfg.maxHistory)
    else messages
  { messages := messages, lastActivity := now }

/-- Embedding of `addToSession` (src/index.ts:2366-2377): load (or
create) the session, mutate the shared object in place, and schedule a
debounced save of it. -/
def addToSession (cfg : SessConfig) (now : Int) (chatId : String) (role : Role)
    (content : String) (st : SessionStore) : SessionStore :=
  let r := loadSession cfg now chatId st
  let st2 := { r.2 with
    heap := r.2.heap.set r.1 (appendMessage cfg now role content (heapGet r.2.heap r.1)) }
  saveSession now chatId r.1 st2

/-- Embedding of `clearSession` (src/index.ts:2384-2394): drop the id
from the cache and from the `pendingSaves` guard set, and unlink the
durable file.  The scheduled `setTimeout` callback itself is not
cancelled — the source keeps no timer handle — so the timer stays. -/
def clearSession (chatId : String) (st : SessionStore) : SessionStore :=
  { st with cache := st.cache.filter (fun e => decide (e.1 ≠ chatId)),
            pendingSaves := st.pendingSaves.filter (fun i => decide (i ≠ chatId)),
            disk := st.disk.filter (fun e => decide (e.1 ≠ chatId)) }

/-- One debounced-flush callback firing (the body of the `setTimeout` in
`saveSession`, src/index.ts:2354-2363): remove the id from the guard set
and write the current value of the captured session object to the
durable store. -/
def fireTimer (acc : SessionStore) (t : Int × String × Nat) : SessionStore :=
  { acc with pendingSaves := acc.pendingSaves.filter (fun i => decide (i ≠ t.2.1)),
             disk := mapSet acc.disk t.2.1 (heapGet acc.heap t.2.2) }

/-- Elapse of the debounce window, part two: run every due callback in
scheduling order and drop the fired timers. -/
def runDueTimers (now : Int) (st : SessionStore) : SessionStore :=
  let due := st.timers.filter (fun t => decide (t.1 ≤ now))
  let st1 := due.foldl fireTimer st
  { st1 with timers := st1.timers.filter (fun t => decide (now < t.1)) }

/-- A session-store operation of the kind claim C5 quantifies over. -/
inductive SessOp where
  | load (now : Int) (chatId : String)
  | add (now : Int) (chatId : String) (role : Role) (content : String)

/-- Run one session-store operation. -/
def runSessOp (cfg : SessConfig) (st : SessionStore) : SessOp → SessionStore
  | .load now chatId => (loadSession cfg now chatId st).2
  | .add now chatId role content => addToSession cfg now chatId role content st

/-- Run a sequence of session-store operations. -/
def runSessOps (cfg : SessConfig) (ops : List SessOp) (st : SessionStore) : SessionStore :=
  ops.foldl (runSessOp cfg) st

/-- Run a sequence of `addToSession` calls for one conversation id; each
element carries the role, the content and the wall-clock time of the
append. -/
def runAppends (cfg : SessConfig) (chatId : String) (apps : List (Role × String × Int))
    (st : SessionStore) : SessionStore :=
  apps.foldl (fun acc a => addToSession cfg a.2.2 chatId a.1 a.2.1 acc) st

/-- The pure effect of a sequence of appends on one session value. -/
def applyAppends (cfg : SessConfig) (s : Session) (apps : List (Role × String × Int)) : Session :=
  apps.foldl (fun acc a => appendMessage cfg a.2.2 a.1 a.2.1 acc) s

/-- Event recurrence (src/calendar.ts:46). -/
inductive Recurrence where
  | daily
  | weekly
  | once
deriving DecidableEq

/-- A tagged recipient of a calendar event (src/calendar.ts:50). -/
structure CalUser where
  jid : String
  name : String
deriving DecidableEq

/-- A calendar event (`CalendarEvent` in src/calendar.ts:43-54).  The
`"HH:MM"` time string is modelled as minutes of day — lexicographic
order on the fixed-width string equals numeric order — and the
`"YYYY-MM-DD"` date string as a UTC day number, likewise
order-isomorphic. -/
structure CalendarEvent where
  id : String
  title : String
  recurrence : Recurrence
  dayOfWeek : Option Nat
  time : Nat
  date : Option Int
  taggedUsers : List CalUser
  createdBy : String
  createdAt : Int
  chatId : String
deriving DecidableEq

/-- Digest schedule configuration (src/calendar.ts:58). -/
structure DigestConfig where
  dailyTime : Nat
  weeklyDay : Nat
  weeklyTime : Nat
deriving DecidableEq

/-- The persisted calendar state (`CalendarData` in
src/calendar.ts:56-61). -/
structure CalendarData where
  events : List CalendarEvent
  digestConfig : DigestConfig
  lastDailyDigest : List (String × Int)
  lastWeeklyDigest : List (String × Int)
deriving DecidableEq

/-- Embedding of `getDateStr` (src/calendar.ts:139-141): the calendar
date of `toISOString()` is UTC, so two timestamps map to the same date
string exactly when they have the same UTC day number; the date is
modelled as that day number. -/
def getDateStr (ms : Int) : Int :=
  ms.fdiv 86400000

/-- Embedding of `getTimeStr` (src/calendar.ts:135-137) under a UTC
clock: the `"HH:MM"` string as minutes of day. -/
def getTimeStr (ms : Int) : Nat :=
  ((ms.fdiv 60000) % 1440).toNat

/-- Day of week of a timestamp (`Date.prototype.getDay` under a UTC
clock, 0 = Sunday; the Unix epoch fell on a Thursday). -/
def getDay (ms : Int) : Nat :=
  ((ms.fdiv 86400000 + 4) % 7).toNat

/-- Embedding of `isTimeWithinWindow` (src/calendar.ts:143-150):
compare two `"HH:MM"` times in seconds, wrapping across midnight. -/
def isTimeWithinWindow (current target : Nat) (windowSeconds : Nat) : Bool :=
  let currentSecs := current * 60
  let targetSecs := target * 60
  let diff := ((currentSecs : Int) - (targetSecs : Int)).natAbs
  decide (diff ≤ windowSeconds) || decide (86400 - diff ≤ windowSeconds)

/-- Due-today test of one event (src/calendar.ts:159-163). -/
def isEventToday (evt : CalendarEvent) (currentDay : Nat) (todayStr : Int) : Bool :=
  match evt.recurrence with
  | .daily => true
  | .weekly => evt.dayOfWeek == some currentDay
  | .once => evt.date == some todayStr

/-- Appending a value to the list held under a string key of a
JavaScript object (`if (!result[k]) result[k] = []; result[k].push(v)`),
preserving key insertion order. -/
def pushEntry {α : Type} (m : List (String × List α)) (k : String) (v : α) :
    List (String × List α) :=
  if m.any (fun p => decide (p.1 = k)) then
    m.map (fun p => if p.1 = k then (p.1, p.2 ++ [v]) else p)
  else m ++ [(k, [v])]

/-- The inner, day-keyed variant of `pushEntry` used by the weekly
collection. -/
def pushDayEntry (m : List (Nat × List CalendarEvent)) (d : Nat) (v : CalendarEvent) :
    List (Nat × List CalendarEvent) :=
  if m.any (fun p => decide (p.1 = d)) then
    m.map (fun p => if p.1 = d then (p.1, p.2 ++ [v]) else p)
  else m ++ [(d, [v])]

/-- Nested push for the weekly collection (`result[jid][day].push(evt)`
in src/calendar.ts:195-199). -/
def pushWeekEntry (m : List (String × List (Nat × List CalendarEvent))) (k : String)
    (d : Nat) (v : CalendarEvent) : List (String × List (Nat × List CalendarEvent)) :=
  if m.any (fun p => decide (p.1 = k)) then
    m.map (fun p => if p.1 = k then (p.1, pushDayEntry p.2 d v) else p)
  else m ++ [(k, [(d, [v])])]

/-- Embedding of `collectTodayEvents` (src/calendar.ts:156-177): group
the events due today by tagged recipient, then sort each recipient's
list by time (the sort by `localeCompare` on `"HH:MM"` strings is the
numeric sort on minutes, stable per the `Array.prototype.sort`
specification). -/
def collectTodayEvents (events : List CalendarEvent) (currentDay : Nat) (todayStr : Int) :
    List (String × List CalendarEvent) :=
  let result := events.foldl (fun acc evt =>
    if isEventToday evt currentDay todayStr then
      evt.taggedUsers.foldl (fun acc2 u => pushEntry acc2 u.jid evt) acc
    else acc) []
  result.map (fun p => (p.1, stableSortByKey (fun e => (e.time : Int)) p.2))

/-- Embedding of `collectWeekEvents` (src/calendar.ts:179-210): for each
of the next 7 days starting today, group the events due that day by
tagged recipient and by day of week, then sort each day list by time. -/
def collectWeekEvents (events : List CalendarEvent) (startDay : Nat) (startDateStr : Int) :
    List (String × List (Nat × List CalendarEvent)) :=
  let result := (List.range 7).foldl (fun acc d =>
    let day := (startDay + d) % 7
    let dateStr := startDateStr + (d : Int)
    events.foldl (fun acc2 evt =>
      let due : Bool :=
        match evt.recurrence with
        | .daily => true
        | .weekly => evt.dayOfWeek == some day
        | .once => evt.date == some dateStr
      if due then
        evt.taggedUsers.foldl (fun acc3 u => pushWeekEntry acc3 u.jid day evt) acc2
      else acc2) acc) []
  result.map (fun p =>
    (p.1, p.2.map (fun q => (q.1, stableSortByKey (fun e => (e.time : Int)) q.2))))

/-- Embedding of `cleanupPastEvents` (src/calendar.ts:220-228) on the
event list: keep every recurring event, and keep a `once` event exactly
when its date has not passed. -/
def cleanupPastEvents (todayStr : Int) (events : List CalendarEvent) : List CalendarEvent :=
  events.filter (fun evt =>
    decide (evt.recurrence ≠ .once) || decide (todayStr ≤ (evt.date.getD 0)))

/-- Which digest a send belongs to. -/
inductive DigestKind where
  | daily
  | weekly
deriving DecidableEq

/-- One iteration of the daily digest loop (src/calendar.ts:251-269):
skip a recipient already notified on the current UTC date, otherwise
attempt the send and on success record the send time.  `dailyOk jid`
reports whether the messaging channel delivered the digest or threw (a
throw is caught per recipient and leaves the recipient's last-sent
timestamp untouched). -/
def dailyStep (dailyOk : String → Bool) (nowMs todayStr : Int)
    (st : CalendarData × List (String × DigestKind)) (entry : String × List CalendarEvent) :
    CalendarData × List (String × DigestKind) :=
  let lastSent := (st.1.lastDailyDigest.lookup entry.1).getD 0
  if getDateStr lastSent = todayStr then st
  else if dailyOk entry.1 then
    ({ st.1 with lastDailyDigest := mapSet st.1.lastDailyDigest entry.1 nowMs },
     st.2 ++ [(entry.1, DigestKind.daily)])
  else st

/-- One iteration of the weekly digest loop (src/calendar.ts:278-306):
skip a recipient notified within the last 23 hours, otherwise attempt
the send and on success record the send time. -/
def weeklyStep (weeklyOk : String → Bool) (nowMs : Int)
    (st : CalendarData × List (String × DigestKind))
    (entry : String × List (Nat × List CalendarEvent)) :
    CalendarData × List (String × DigestKind) :=
  let lastSent := (st.1.lastWeeklyDigest.lookup entry.1).getD 0
  if nowMs - lastSent < 23 * 60 * 60 * 1000 then st
  else if weeklyOk entry.1 then
    ({ st.1 with lastWeeklyDigest := mapSet st.1.lastWeeklyDigest entry.1 nowMs },
     st.2 ++ [(entry.1, DigestKind.weekly)])
  else st

/-- Embedding of `processCalendarDigests` (src/calendar.ts:234-315),
folding the two named loop steps over the collected recipients.
Returns the persisted calendar state together with the ordered list of
successful sends; message composition (the digest text) is presentation
and is not modelled — a send is recorded as the recipient id and the
digest kind. -/
def processCalendarDigests (dailyOk weeklyOk : String → Bool) (nowMs : Int)
    (cal : CalendarData) : CalendarData × List (String × DigestKind) :=
  if cal.events.length = 0 then (cal, [])
  else
    let currentTime := getTimeStr nowMs
    let currentDay := getDay nowMs
    let todayStr := getDateStr nowMs
    let step1 :=
      if isTimeWithinWindow currentTime cal.digestConfig.dailyTime 60 then
        let userEvents := collectTodayEvents cal.events currentDay todayStr
        userEvents.foldl (dailyStep dailyOk nowMs todayStr) (cal, [])
      else (cal, [])
    let step2 :=
      if currentDay = cal.digestConfig.weeklyDay ∧
          isTimeWithinWindow currentTime cal.digestConfig.weeklyTime 60 then
        let userWeekEvents := collectWeekEvents cal.events currentDay todayStr
        userWeekEvents.foldl (weeklyStep weeklyOk nowMs) step1
      else step1
    ({ step2.1 with events := cleanupPastEvents todayStr step2.1.events }, step2.2)

/-- The concrete store claim C5 is witnessed on: three sessions "a",
"b", "c" on disk with ascending activity, "a" carrying one message. -/
def witnessDisk : List (String × Session) :=
  [("a", { messages := [{ role := Role.user, content := "m1", timestamp := 1 }], lastActivity := 1 }),
   ("b", { messages := [], lastActivity := 2 }),
   ("c", { messages := [], lastActivity := 3 })]

/-- The concrete calendar claim C7 is witnessed on: one daily event at
09:00 tagged to recipient "u", digests scheduled daily at 07:00 and
weekly on Friday at 07:00, no digest sent yet. -/
def eventW : CalendarEvent :=
  { id := "e1", title := "standup", recurrence := Recurrence.daily, dayOfWeek := none, time := 540, date := none, taggedUsers := [{ jid := "u", name := "U" }], createdBy := "u", createdAt := 0, chatId := "g" }

/-- The calendar state the witness starts from. -/
def calW : CalendarData :=
  { events := [eventW], digestConfig := { dailyTime := 420, weeklyDay := 5, weeklyTime := 420 }, lastDailyDigest := [], lastWeeklyDigest := [] }

/-- The session-store configuration with the source constants:
`MAX_CACHED_SESSIONS = 20` (src/index.ts:2306) and the default
`CONFIG.maxHistory = 50` (src/index.ts:46). -/
def cfgCE : SessConfig :=
  { maxCachedSessions := 20, maxHistory := 50 }

/-- A reachable store on which claim C4 fails: the cache is full with
twenty sessions last active at time 50, and conversation "x" exists only
durably, with a stale `lastActivity` of 0.  Loading "x" inserts it with
its stale timestamp and `evictOldSessions` — which runs inside
`loadSession`, before `addToSession` refreshes `lastActivity` — evicts
"x" itself as least recently active. -/
def stCE : SessionStore :=
  { heap := List.replicate 20 { messages := [], lastActivity := 50 },
    cache := [("c0", 0), ("c1", 1), ("c2", 2), ("c3", 3), ("c4", 4), ("c5", 5), ("c6", 6), ("c7", 7), ("c8", 8), ("c9", 9), ("c10", 10), ("c11", 11), ("c12", 12), ("c13", 13), ("c14", 14), ("c15", 15), ("c16", 16), ("c17", 17), ("c18", 18), ("c19", 19)],
    pendingSaves := [],
    timers := [],
    disk := [("x", { messages := [], lastActivity := 0 })] }

/-- C1: for non-negative `used` and positive `budget` the budget ladder
returns exactly the tier of the band the ratio `used / budget` falls
into: `shouldBlock` holds iff the ratio is at least 1; in `[0.9, 1)` the
cheapest model with 500 output tokens and history 5; in `[0.75, 0.9)`
the configured model with 1024 tokens and history 10; in `[0.5, 0.75)`
the configured model and tokens with history 20; below `0.5` all
configured defaults. -/
theorem budget_ladder_bands (cfg : LizardBrainConfig) (st : BrainState)
    (hused : 0 ≤ st.used) (hbudget : 0 < st.budget) :
    ((getBudgetAwareParams cfg st).shouldBlock = true ↔ 1 ≤ st.used / st.budget)
    ∧ ((9 : ℚ)/10 ≤ st.used / st.budget → st.used / st.budget < 1 →
        getBudgetAwareParams cfg st =
          { model := "claude-3-haiku-20240307", maxTokens := 500, maxHistory := 5,
            shouldBlock := false })
    ∧ ((3 : ℚ)/4 ≤ st.used / st.budget → st.used / st.budget < (9 : ℚ)/10 →
        getBudgetAwareParams cfg st =
          { model := cfg.model, maxTokens := 1024, maxHistory := 10, shouldBlock := false })
    ∧ ((1 : ℚ)/2 ≤ st.used / st.budget → st.used / st.budget < (3 : ℚ)/4 →
        getBudgetAwareParams cfg st =
          { model := cfg.model, maxTokens := cfg.maxTokens, maxHistory := 20,
            shouldBlock := false })
    ∧ (st.used / st.budget < (1 : ℚ)/2 →
        getBudgetAwareParams cfg st =
          { model := cfg.model, maxTokens := cfg.maxTokens, maxHistory := cfg.maxHistory,
            shouldBlock := false }) := by
  unfold getBudgetAwareParams
  dsimp only
  split_ifs with h1 h2 h3 h4 <;>
    refine ⟨?_, ?_, ?_, ?_, ?_⟩ <;> intros <;>
    first
      | rfl
      | linarith
      | simp [h1]

/-- Witness for C1 at `used = 999999`, `budget = 1000000`: the block
boundary is exact, so a ratio of 0.999999 does not block. -/
theorem budget_ladder_bands_witness :
    ((getBudgetAwareParams
        { model := "claude-sonnet-4-20250514", maxTokens := 4096, maxHistory := 50,
          dailyTokenBudget := 1000000, lizardInterval := 30000 }
        { energy := 100, stress := 0, curiosity := 50, used := 999999,
          budget := 1000000 }).shouldBlock = true ↔
      1 ≤ (999999 : ℚ) / 1000000) :=
  (budget_ladder_bands _ _ (by norm_num) (by norm_num)).1

/-- C2 (amended): whenever the usage ratio is below 0.95 and stress is at
least 90 when a message is routed, `tryQuickResponse` returns the fixed
"taking a breath" message without attempting any quick-pattern match —
the result does not depend on the pattern-match outcome `pat` — and
applies a one-time stress relief of exactly 10, leaving every other
field of the state unchanged. -/
theorem stress_guard_breath_message (st : BrainState) (pat : Option String)
    (husage : st.used / st.budget < (95 : ℚ)/100) (hstress : 90 ≤ st.stress) :
    tryQuickResponse st pat = (some breathMessage, { st with stress := st.stress - 10 }) := by
  have h1 : ¬ (1 : ℚ) ≤ st.used / st.budget := by linarith
  have h2 : ¬ (95 : ℚ)/100 ≤ st.used / st.budget := by linarith
  have h3 : (80 : ℚ) ≤ st.stress := by linarith
  have h4 : (80 : ℚ) ≤ st.stress - 10 := by linarith
  unfold tryQuickResponse checkSpecialStates
  simp only [if_neg h1, if_neg h2, if_pos h3]
  simp only [if_neg h1, if_pos h4]

/-- C2 counterexample: at stress exactly 80 (and ample budget) the claim
fails — `checkSpecialStates` first applies the −10 relief, after which
the router's own `stress >= 80` re-check is false, so a matching quick
pattern is answered instead of the fixed "taking a breath" message. -/
theorem stress_guard_claim_counterexample :
    (tryQuickResponse
        { energy := 100, stress := 80, curiosity := 50, used := 0, budget := 100000 }
        (some "Hey there! 🦞")).1 = some "Hey there! 🦞"
    ∧ "Hey there! 🦞" ≠ breathMessage := by
  constructor
  · norm_num [tryQuickResponse, checkSpecialStates, tryPatterns]
  · decide

/-- Witness for C2 at stress 95 and zero usage with a matching greeting
pattern: the breath message wins and stress drops to 85. -/
theorem stress_guard_breath_message_witness :
    (tryQuickResponse
        { energy := 100, stress := 95, curiosity := 50, used := 0, budget := 100000 }
        (some "Hey there! 🦞")).1 = some breathMessage := by
  rw [stress_guard_breath_message _ _ (by norm_num) (by norm_num)]

/-- C9: a configured daily token budget of zero is not rejected at
startup — the embedded `initLizardBrain` is total, accepts the
configuration and stores budget 0, after which the process goes on to
serve and every usage check divides by it. -/
theorem zero_budget_accepted_at_startup :
    (initLizardBrain
        { model := "claude-sonnet-4-20250514", maxTokens := 4096, maxHistory := 50,
          dailyTokenBudget := 0, lizardInterval := 30000 } initialLizardBrain).budget = 0 := by
  norm_num [initLizardBrain]

/-- C8 counterexample: when the calendar-digest callback of a tick
throws, the pending-state cleanup step and the tracking-map trim of that
same tick do not execute, contradicting the claim that every step runs
in isolation. -/
theorem tick_isolation_counterexample :
    ((runLizardTick (fun _ => true) 0 [] (some "saveCalendar failed") none).1.cleanupRan
        = false)
    ∧ ((runLizardTick (fun _ => true) 0 [] (some "saveCalendar failed") none).1.responsesTrimmed
        = false) :=
  ⟨rfl, rfl⟩

/-- C8 (amended): reminder delivery failures are caught per reminder and
never abort the tick — every due reminder is attempted and the later
steps run whatever `deliver` reports — but the calendar-digest and
cleanup callbacks are not isolated: an exception from the digest
callback skips the cleanup step and the tracking-map trim of that tick,
and an exception from the cleanup callback skips the trim. -/
theorem tick_step_isolation (deliver : Reminder → Bool) (now : Int)
    (pending : List Reminder) (e : String) :
    ((runLizardTick deliver now pending none none).1.remindersAttempted
        = (pending.filter (fun r => decide (r.dueAt ≤ now))).length
      ∧ (runLizardTick deliver now pending none none).1.cleanupRan = true
      ∧ (runLizardTick deliver now pending none none).1.responsesTrimmed = true)
    ∧ ((runLizardTick deliver now pending (some e) none).1.remindersAttempted
        = (pending.filter (fun r => decide (r.dueAt ≤ now))).length
      ∧ (runLizardTick deliver now pending (some e) none).1.cleanupRan = false
      ∧ (runLizardTick deliver now pending (some e) none).1.responsesTrimmed = false)
    ∧ ((runLizardTick deliver now pending none (some e)).1.cleanupRan = true
      ∧ (runLizardTick deliver now pending none (some e)).1.responsesTrimmed = false) := by
  refine ⟨⟨?_, rfl, rfl⟩, ⟨?_, rfl, rfl⟩, rfl, rfl⟩ <;>
    simp [runLizardTick, processReminders]

/-- Filtering out every entry of a key makes its lookup `none`. -/
theorem lookup_filter_ne {α : Type} (m : List (String × α)) (k : String) :
    (m.filter (fun p => decide (p.1 ≠ k))).lookup k = none := by
  induction m with
  | nil => rfl
  | cons p t ih =>
    by_cases h : p.1 = k
    · rw [List.filter_cons_of_neg (by simpa using h)]
      exact ih
    · rw [List.filter_cons_of_pos (by simpa using h)]
      have hk : (k == p.1) = false := beq_eq_false_iff_ne.mpr (Ne.symm h)
      simpa [List.lookup, hk] using ih

/-- Deleting a key removes every entry for it: the lookup afterwards is
`none`. -/
theorem lookup_mapDelete {α : Type} (m : List (String × α)) (k : String) :
    (mapDelete m k).lookup k = none :=
  lookup_filter_ne m k

/-- A lookup miss makes `consumePendingContactTag` return `none`. -/
theorem consume_of_lookup_none (now : Int) (m : List (String × PendingTag)) (chatId : String)
    (h : m.lookup chatId = none) : (consumePendingContactTag now m chatId).1 = none := by
  unfold consumePendingContactTag
  rw [h]

/-- All three branches of `consumePendingContactTag` delete the key. -/
theorem consume_contact_tag_snd (now : Int) (m : List (String × PendingTag)) (chatId : String) :
    (consumePendingContactTag now m chatId).2 = mapDelete m chatId := by
  unfold consumePendingContactTag
  cases m.lookup chatId with
  | none => rfl
  | some p => by_cases h : p.expiresAt < now <;> simp [h]

/-- C10: `consumePendingContactTag` is one-shot — after any call the map
holds no entry for the conversation id, so a second consecutive call
returns `none`; and the call returns the stored event id exactly when an
entry existed whose expiry had not passed at call time, while an absent
or expired entry yields `none`. -/
theorem consume_contact_tag_one_shot (now now2 : Int) (m : List (String × PendingTag))
    (chatId : String) :
    ((consumePendingContactTag now m chatId).2.lookup chatId = none)
    ∧ ((consumePendingContactTag now2 (consumePendingContactTag now m chatId).2 chatId).1
        = none)
    ∧ ((consumePendingContactTag now m chatId).1 =
        match m.lookup chatId with
        | some p => if now ≤ p.expiresAt then some p.eventId else none
        | none => none) := by
  have hnone : (consumePendingContactTag now m chatId).2.lookup chatId = none := by
    rw [consume_contact_tag_snd]; exact lookup_mapDelete m chatId
  refine ⟨hnone, consume_of_lookup_none now2 _ chatId hnone, ?_⟩
  · unfold consumePendingContactTag
    cases m.lookup chatId with
    | none => rfl
    | some p =>
      by_cases h : p.expiresAt < now
      · simp [h, show ¬ now ≤ p.expiresAt by omega]
      · simp [h, show now ≤ p.expiresAt by omega]

/-- The reminders attempted on a tick are exactly the due ones, in
queue order. -/
theorem attempts_map_fst (deliver : Reminder → Bool) (now : Int) (pending : List Reminder) :
    (processReminders deliver now pending).attempts.map Prod.fst
      = pending.filter (fun r => decide (r.dueAt ≤ now)) := by
  unfold processReminders
  dsimp only
  rw [List.map_map]
  exact List.map_id _

/-- C6: on a tick every reminder with `dueAt ≤ now` has its delivery
attempted exactly once — whatever the delivery outcomes — and is removed
from the queue; a reminder scheduled with zero delay is due on the very
next tick, so it is attempted then; and a subsequent tick never re-fires
a reminder the first tick attempted. -/
theorem reminder_dispatch_at_most_once (deliver deliver2 : Reminder → Bool)
    (now now2 : Int) (pending : List Reminder) (h12 : now ≤ now2) :
    ((processReminders deliver now pending).attempts.map Prod.fst
        = pending.filter (fun r => decide (r.dueAt ≤ now)))
    ∧ (∀ r : Reminder, r.dueAt ≤ now →
        ((processReminders deliver now pending).attempts.map Prod.fst).count r
          = pending.count r)
    ∧ (∀ r : Reminder, r ∈ (processReminders deliver now pending).attempts.map Prod.fst →
        r ∉ (processReminders deliver now pending).remaining)
    ∧ (∀ chatId message t0, t0 ≤ now → scheduleReminder chatId message 0 t0 ∈ pending →
        scheduleReminder chatId message 0 t0
          ∈ (processReminders deliver now pending).attempts.map Prod.fst)
    ∧ (∀ r : Reminder, r ∈ (processReminders deliver now pending).attempts.map Prod.fst →
        r ∉ (processReminders deliver2 now2
              (processReminders deliver now pending).remaining).attempts.map Prod.fst) := by
  have hmap := attempts_map_fst deliver now pending
  refine ⟨hmap, ?_, ?_, ?_, ?_⟩
  · intro r hr
    rw [hmap]
    exact List.count_filter (by simpa using hr)
  · intro r hr
    rw [hmap, List.mem_filter] at hr
    simp only [processReminders, List.mem_filter]
    intro hc
    have h1 : r.dueAt ≤ now := by simpa using hr.2
    have h2 : now < r.dueAt := by simpa using hc.2
    omega
  · intro chatId message t0 ht hmem
    rw [hmap, List.mem_filter]
    refine ⟨hmem, ?_⟩
    simp [scheduleReminder]
    omega
  · intro r hr hr2
    rw [hmap, List.mem_filter] at hr
    have h1 : r.dueAt ≤ now := by simpa using hr.2
    have hrem : r ∈ (processReminders deliver now pending).remaining := by
      rw [attempts_map_fst, List.mem_filter] at hr2
      exact hr2.1
    simp only [processReminders, List.mem_filter] at hrem
    have h2 : now < r.dueAt := by simpa using hrem.2
    omega

/-- Witness for C6: a single reminder scheduled with zero delay at time
5 is attempted on the tick at time 5, with a failing delivery, and the
queue is left empty. -/
theorem reminder_dispatch_at_most_once_witness :
    scheduleReminder "chat" "call mom" 0 5
      ∈ (processReminders (fun _ => false) 5 [scheduleReminder "chat" "call mom" 0 5]).attempts.map
          Prod.fst := by
  have h := reminder_dispatch_at_most_once (fun _ => false) (fun _ => true) 5 6
    [scheduleReminder "chat" "call mom" 0 5] (by omega)
  exact h.2.2.2.1 "chat" "call mom" 5 (by omega) (by simp)

/-- C3: the pending debounced flush is not cancelled by `clearSession` —
after one append to "chat1", a `clearSession "chat1"` inside the
debounce window, and the elapse of the window, the durable store again
contains the session with its old content: `clearSession` only removes
the id from the `pendingSaves` guard set and the scheduled `setTimeout`
callback still runs and rewrites the file the clear had unlinked. -/
theorem clear_session_flush_still_writes :
    (runDueTimers 1000
        (clearSession "chat1"
          (addToSession { maxCachedSessions := 20, maxHistory := 50 } 0 "chat1" Role.user
            "hello" emptySessionStore))).disk.lookup "chat1"
      = some { messages := [{ role := Role.user, content := "hello", timestamp := 0 }],
               lastActivity := 0 } := by
  decide

/-- A key absent from the front of an association list is looked up in
the back. -/
theorem lookup_append_of_none {α : Type} (l1 l2 : List (String × α)) (k : String)
    (h : l1.lookup k = none) : (l1 ++ l2).lookup k = l2.lookup k := by
  induction l1 with
  | nil => rfl
  | cons p t ih =>
    by_cases hk : k = p.1
    · simp [List.lookup, beq_iff_eq, hk] at h
    · have hb : (k == p.1) = false := beq_eq_false_iff_ne.mpr hk
      simp only [List.lookup, hb] at h
      simpa [List.cons_append, List.lookup, hb] using ih h

/-- A `none` lookup means no entry carries the key. -/
theorem forall_ne_of_lookup_none {α : Type} (m : List (String × α)) (k : String)
    (h : m.lookup k = none) : ∀ e ∈ m, e.1 ≠ k := by
  induction m with
  | nil => intro e he; cases he
  | cons p t ih =>
    by_cases hk : k = p.1
    · simp [List.lookup, beq_iff_eq, hk] at h
    · have hb : (k == p.1) = false := beq_eq_false_iff_ne.mpr hk
      simp only [List.lookup, hb] at h
      intro e he
      rcases List.mem_cons.mp he with rfl | he2
      · exact fun hh => hk hh.symm
      · exact ih h e he2

/-- Looking up the key of an entry appended after key-free entries. -/
theorem lookup_append_self {α : Type} (l : List (String × α)) (k : String) (v : α)
    (h : ∀ e ∈ l, e.1 ≠ k) : (l ++ [(k, v)]).lookup k = some v := by
  induction l with
  | nil => simp [List.lookup]
  | cons p t ih =>
    have hb : (k == p.1) = false :=
      beq_eq_false_iff_ne.mpr (fun hh => h p (List.mem_cons_self p t) hh.symm)
    simpa [List.cons_append, List.lookup, hb] using
      ih (fun e he => h e (List.mem_cons_of_mem p he))

/-- Lookup steps over a head entry with a different key. -/
theorem lookup_cons_of_ne {α : Type} (p : String × α) (t : List (String × α)) (k : String)
    (h : k ≠ p.1) : List.lookup k (p :: t) = List.lookup k t := by
  obtain ⟨a, b⟩ := p
  have hb : (k == a) = false := beq_eq_false_iff_ne.mpr h
  simp [List.lookup, hb]

/-- Lookup stops at a head entry with the key. -/
theorem lookup_cons_self {α : Type} (p : String × α) (t : List (String × α)) (k : String)
    (h : k = p.1) : List.lookup k (p :: t) = some p.2 := by
  obtain ⟨a, b⟩ := p
  simp only at h
  simp [List.lookup, h]

/-- Appending an entry with a different key does not change a lookup. -/
theorem lookup_append_single_ne {α : Type} (l : List (String × α)) (k k2 : String) (v : α)
    (h : k ≠ k2) : (l ++ [(k, v)]).lookup k2 = l.lookup k2 := by
  induction l with
  | nil => simp [List.lookup, beq_eq_false_iff_ne.mpr (Ne.symm h)]
  | cons p t ih =>
    by_cases hp2 : k2 = p.1
    · rw [List.cons_append, lookup_cons_self p _ k2 hp2,
        lookup_cons_self p t k2 hp2]
    · rw [List.cons_append, lookup_cons_of_ne p _ k2 hp2,
        lookup_cons_of_ne p t k2 hp2]
      exact ih

/-- Setting a key makes its lookup return the new value. -/
theorem lookup_mapSet_self {α : Type} (m : List (String × α)) (k : String) (v : α) :
    (mapSet m k v).lookup k = some v := by
  induction m with
  | nil => simp [mapSet, List.lookup]
  | cons p t ih =>
    by_cases hp : p.1 = k
    · rw [mapSet, if_pos (show ((p :: t).any fun q => decide (q.1 = k)) = true by simp [hp])]
      rw [List.map_cons, if_pos hp]
      exact lookup_cons_self (p.1, v) _ k hp.symm
    · have hne : k ≠ p.1 := fun hh => hp hh.symm
      by_cases h2 : t.any (fun q => decide (q.1 = k))
      · rw [mapSet, if_pos (show ((p :: t).any fun q => decide (q.1 = k)) = true by
          simp [List.any_cons, h2])]
        rw [List.map_cons, if_neg hp, lookup_cons_of_ne _ _ _ hne]
        have hmap : mapSet t k v = t.map (fun q => if q.1 = k then (q.1, v) else q) := by
          rw [mapSet, if_pos h2]
        rw [← hmap]
        exact ih
      · have hany : ((p :: t).any fun q => decide (q.1 = k)) = false := by
          simp [List.any_cons, hp, h2]
        rw [mapSet, if_neg (by simp [hany])]
        rw [List.cons_append, lookup_cons_of_ne _ _ _ hne]
        refine lookup_append_self t k v ?_
        intro e he hek
        have h4 : t.any (fun q => decide (q.1 = k)) = true :=
          List.any_eq_true.mpr ⟨e, he, by simpa using hek⟩
        exact absurd h4 (by simpa using h2)

/-- Setting one key leaves the lookup of another unchanged. -/
theorem lookup_mapSet_ne {α : Type} (m : List (String × α)) (k k2 : String) (v : α)
    (h : k ≠ k2) : (mapSet m k v).lookup k2 = m.lookup k2 := by
  induction m with
  | nil => simp [mapSet, List.lookup, beq_eq_false_iff_ne.mpr (Ne.symm h)]
  | cons p t ih =>
    by_cases hany : ((p :: t).any fun q => decide (q.1 = k)) = true
    · rw [mapSet, if_pos hany, List.map_cons]
      by_cases hp : p.1 = k
      · rw [if_pos hp]
        by_cases hp2 : k2 = p.1
        · exact absurd (hp2.trans hp).symm h
        · rw [lookup_cons_of_ne (p.1, v) _ k2 hp2, lookup_cons_of_ne p t k2 hp2]
          by_cases h3 : t.any (fun q => decide (q.1 = k))
          · have hmap : mapSet t k v = t.map (fun q => if q.1 = k then (q.1, v) else q) := by
              rw [mapSet, if_pos h3]
            rw [← hmap]
            exact ih
          · have hmap : t.map (fun q => if q.1 = k then (q.1, v) else q) = t.map id := by
              refine List.map_congr_left ?_
              intro q hq
              have hqk : ¬ q.1 = k := by
                intro hh
                have h4 : t.any (fun q2 => decide (q2.1 = k)) = true :=
                  List.any_eq_true.mpr ⟨q, hq, by simpa using hh⟩
                exact absurd h4 (by simpa using h3)
              simp [hqk]
            rw [hmap, List.map_id]
      · have h3 : t.any (fun q => decide (q.1 = k)) = true := by
          rcases List.any_eq_true.mp hany with ⟨q, hq, hqk⟩
          rcases List.mem_cons.mp hq with rfl | hq2
          · exact absurd (by simpa using hqk) hp
          · exact List.any_eq_true.mpr ⟨q, hq2, hqk⟩
        rw [if_neg hp]
        by_cases hp2 : k2 = p.1
        · rw [lookup_cons_self p _ k2 hp2, lookup_cons_self p t k2 hp2]
        · rw [lookup_cons_of_ne p _ k2 hp2, lookup_cons_of_ne p t k2 hp2]
          have hmap : mapSet t k v = t.map (fun q => if q.1 = k then (q.1, v) else q) := by
            rw [mapSet, if_pos h3]
          rw [← hmap]
          exact ih
    · rw [mapSet, if_neg (by simpa using hany), List.cons_append]
      by_cases hp2 : k2 = p.1
      · rw [lookup_cons_self p _ k2 hp2, lookup_cons_self p t k2 hp2]
      · rw [lookup_cons_of_ne p _ k2 hp2, lookup_cons_of_ne p t k2 hp2]
        exact lookup_append_single_ne t k k2 v h

/-- Reading inside the prefix of an extended heap. -/
theorem heapGet_append_lt (h h2 : List Session) (a : Nat) (ha : a < h.length) :
    heapGet (h ++ h2) a = heapGet h a := by
  unfold heapGet
  rw [List.getElem?_append_left ha]

/-- Reading the freshly allocated address. -/
theorem heapGet_append_self (h : List Session) (s : Session) :
    heapGet (h ++ [s]) h.length = s := by
  unfold heapGet
  rw [List.getElem?_append_right (Nat.le_refl _)]
  simp

/-- Reading an overwritten address. -/
theorem heapGet_set_self (h : List Session) (a : Nat) (v : Session) (ha : a < h.length) :
    heapGet (h.set a v) a = v := by
  unfold heapGet
  simp [List.getElem?_set_self, ha]

/-- Overwriting an address with its current content is the identity. -/
theorem set_heapGet_self (h : List Session) (a : Nat) (ha : a < h.length) :
    h.set a (heapGet h a) = h := by
  induction h generalizing a with
  | nil => cases ha
  | cons x t ih =>
    cases a with
    | zero => simp [heapGet]
    | succ a2 =>
      have : t.set a2 (heapGet t a2) = t := ih a2 (by simpa using ha)
      simp only [List.set_cons_succ, heapGet, List.getElem?_cons_succ] at this ⊢
      rw [this]

/-- Stable insertion is a permutation of consing. -/
theorem insertByKey_perm {α : Type} (key : α → Int) (x : α) (l : List α) :
    List.Perm (insertByKey key x l) (x :: l) := by
  induction l with
  | nil => exact List.Perm.refl _
  | cons y ys ih =>
    unfold insertByKey
    by_cases hk : key y ≤ key x
    · rw [if_pos hk]
      exact (ih.cons y).trans (List.Perm.swap x y ys)
    · rw [if_neg hk]

/-- The stable sort permutes its input. -/
theorem stableSortByKey_perm {α : Type} (key : α → Int) (l : List α) :
    List.Perm (stableSortByKey key l) l := by
  have haux : ∀ (l2 acc : List α),
      List.Perm (l2.foldl (fun a x => insertByKey key x a) acc) (acc ++ l2) := by
    intro l2
    induction l2 with
    | nil => intro acc; simp
    | cons x xs ih =>
      intro acc
      have h1 := ih (insertByKey key x acc)
      have h2 : List.Perm (insertByKey key x acc ++ xs) ((x :: acc) ++ xs) :=
        (insertByKey_perm key x acc).append_right xs
      have h3 : List.Perm ((x :: acc) ++ xs) (acc ++ x :: xs) := by
        simpa using List.perm_middle.symm
      exact (h1.trans h2).trans h3
  simpa using haux l []

/-- Inserting a maximal-key element lands at the end. -/
theorem insertByKey_append_last {α : Type} (key : α → Int) (x : α) (l : List α)
    (h : ∀ y ∈ l, key y ≤ key x) : insertByKey key x l = l ++ [x] := by
  induction l with
  | nil => rfl
  | cons y ys ih =>
    unfold insertByKey
    rw [if_pos (h y (List.mem_cons_self y ys))]
    rw [ih (fun z hz => h z (List.mem_cons_of_mem y hz))]
    rfl

/-- Stably sorting after appending a maximal-key element sorts the
front and keeps the element last. -/
theorem stableSortByKey_append_last {α : Type} (key : α → Int) (x : α) (l : List α)
    (h : ∀ y ∈ l, key y ≤ key x) :
    stableSortByKey key (l ++ [x]) = stableSortByKey key l ++ [x] := by
  unfold stableSortByKey
  rw [List.foldl_append]
  simp only [List.foldl_cons, List.foldl_nil]
  refine insertByKey_append_last key x _ ?_
  intro y hy
  exact h y ((stableSortByKey_perm key l).mem_iff.mp hy)

/-- Eviction touches only the cache. -/
theorem evict_fields (cfg : SessConfig) (st : SessionStore) :
    (evictOldSessions cfg st).heap = st.heap
    ∧ (evictOldSessions cfg st).pendingSaves = st.pendingSaves
    ∧ (evictOldSessions cfg st).timers = st.timers
    ∧ (evictOldSessions cfg st).disk = st.disk := by
  unfold evictOldSessions
  split_ifs <;> exact ⟨rfl, rfl, rfl, rfl⟩

/-- Eviction leaves at most `MAX_CACHED_SESSIONS` cache entries. -/
theorem evict_cache_length_le (cfg : SessConfig) (st : SessionStore) :
    (evictOldSessions cfg st).cache.length ≤ cfg.maxCachedSessions := by
  unfold evictOldSessions
  by_cases hlen : st.cache.length ≤ cfg.maxCachedSessions
  · rw [if_pos hlen]; exact hlen
  · rw [if_neg hlen]
    have hnot : cfg.maxCachedSessions < st.cache.length := Nat.lt_of_not_le hlen
    set key := fun e : String × Nat => (heapGet st.heap e.2).lastActivity with hkey
    set sorted := stableSortByKey key st.cache with hsorted
    set k := st.cache.length - cfg.maxCachedSessions with hk
    set toEvict := (sorted.take k).map Prod.fst with hte
    have hperm : List.Perm st.cache sorted := (stableSortByKey_perm key st.cache).symm
    have hfperm := hperm.filter (fun e => decide (e.1 ∉ toEvict))
    rw [hfperm.length_eq]
    have hsplit : sorted = sorted.take k ++ sorted.drop k := (List.take_append_drop k sorted).symm
    rw [hsplit, List.filter_append]
    have hnil : (sorted.take k).filter (fun e => decide (e.1 ∉ toEvict)) = [] := by
      refine List.filter_eq_nil_iff.mpr ?_
      intro e he
      have : e.1 ∈ toEvict := by
        rw [hte]
        exact List.mem_map_of_mem Prod.fst he
      simp [this]
    rw [hnil, List.nil_append]
    calc ((sorted.drop k).filter (fun e => decide (e.1 ∉ toEvict))).length
        ≤ (sorted.drop k).length := List.length_filter_le _ _
      _ = sorted.length - k := List.length_drop k sorted
      _ ≤ cfg.maxCachedSessions := by
          rw [← hperm.length_eq]
          omega

/-- A cache at capacity or below is not evicted. -/
theorem evict_noop (cfg : SessConfig) (st : SessionStore)
    (h : st.cache.length ≤ cfg.maxCachedSessions) : evictOldSessions cfg st = st := by
  unfold evictOldSessions
  rw [if_pos h]

/-- Firing timers never changes the heap. -/
theorem foldl_fireTimer_heap (l : List (Int × String × Nat)) :
    ∀ st : SessionStore, (l.foldl fireTimer st).heap = st.heap := by
  induction l with
  | nil => intro st; rfl
  | cons t ts ih => intro st; rw [List.foldl_cons, ih]; rfl

/-- Firing timers never changes the timer list itself (the surrounding
`runDueTimers` drops the fired ones afterwards). -/
theorem foldl_fireTimer_timers (l : List (Int × String × Nat)) :
    ∀ st : SessionStore, (l.foldl fireTimer st).timers = st.timers := by
  induction l with
  | nil => intro st; rfl
  | cons t ts ih => intro st; rw [List.foldl_cons, ih]; rfl

/-- When the last due timer for a window is the single one holding
`chatId`, the elapse of the window writes exactly that timer's captured
session object for `chatId`. -/
theorem runDueTimers_lookup (now : Int) (st : SessionStore) (ts0 : List (Int × String × Nat))
    (fireAt : Int) (chatId : String) (addr : Nat)
    (hts : st.timers = ts0 ++ [(fireAt, chatId, addr)])
    (hf : fireAt ≤ now) :
    (runDueTimers now st).disk.lookup chatId = some (heapGet st.heap addr) := by
  obtain ⟨sheap, scache, sps, stm, sdisk⟩ := st
  simp only at hts
  subst hts
  unfold runDueTimers
  dsimp only
  rw [List.filter_append]
  have hx : [((fireAt, chatId, addr) : Int × String × Nat)].filter
      (fun t => decide (t.1 ≤ now)) = [(fireAt, chatId, addr)] := by
    simp [hf]
  rw [hx, List.foldl_append]
  simp only [List.foldl_cons, List.foldl_nil]
  rw [show ∀ acc : SessionStore, (fireTimer acc (fireAt, chatId, addr)).disk
      = mapSet acc.disk chatId (heapGet acc.heap addr) from fun acc => rfl]
  rw [foldl_fireTimer_heap]
  exact lookup_mapSet_self _ chatId _

/-- Loading a fresh conversation with a maximal `lastActivity` among the
cached sessions: the new entry ends up cached at the fresh address and
survives eviction (there is at least one older entry to evict first). -/
theorem evict_lookup_fresh (cfg : SessConfig) (st : SessionStore) (chatId : String)
    (addr : Nat) (c0 : List (String × Nat))
    (hN : 1 ≤ cfg.maxCachedSessions)
    (hc : st.cache = c0 ++ [(chatId, addr)])
    (hne : ∀ e ∈ c0, e.1 ≠ chatId)
    (hact : ∀ e ∈ c0, (heapGet st.heap e.2).lastActivity ≤ (heapGet st.heap addr).lastActivity) :
    (evictOldSessions cfg st).cache.lookup chatId = some addr := by
  obtain ⟨sheap, scache, sps, stm, sdisk⟩ := st
  simp only at hc hne hact
  subst hc
  unfold evictOldSessions
  dsimp only
  by_cases hlen : (c0 ++ [(chatId, addr)]).length ≤ cfg.maxCachedSessions
  · rw [if_pos hlen]
    exact lookup_append_self c0 chatId addr hne
  · rw [if_neg hlen]
    set key := fun e : String × Nat => (heapGet sheap e.2).lastActivity with hkey
    have hsorted : stableSortByKey key (c0 ++ [(chatId, addr)])
        = stableSortByKey key c0 ++ [(chatId, addr)] :=
      stableSortByKey_append_last key (chatId, addr) c0 hact
    set k := (c0 ++ [(chatId, addr)]).length - cfg.maxCachedSessions with hk
    have hkle : k ≤ (stableSortByKey key c0).length := by
      have h1 : (stableSortByKey key c0).length = c0.length :=
        (stableSortByKey_perm key c0).length_eq
      have h2 : (c0 ++ [(chatId, addr)]).length = c0.length + 1 := by simp
      omega
    have htake : (stableSortByKey key (c0 ++ [(chatId, addr)])).take k
        = (stableSortByKey key c0).take k := by
      rw [hsorted]
      exact List.take_append_of_le_length hkle
    have hnotin : chatId
        ∉ ((stableSortByKey key (c0 ++ [(chatId, addr)])).take k).map Prod.fst := by
      rw [htake]
      intro hmem
      rcases List.mem_map.mp hmem with ⟨e, he, hefst⟩
      have he2 : e ∈ c0 := (stableSortByKey_perm key c0).mem_iff.mp (List.mem_of_mem_take he)
      exact hne e he2 hefst
    rw [List.filter_append]
    have hours : [((chatId, addr) : String × Nat)].filter
        (fun e =>
          decide (e.1 ∉ ((stableSortByKey key (c0 ++ [(chatId, addr)])).take k).map Prod.fst))
        = [(chatId, addr)] := by
      rw [List.map_take] at hnotin
      simp [hnotin]
    rw [hours]
    refine lookup_append_self _ chatId addr ?_
    intro e he
    exact hne e (List.mem_of_mem_filter he)

/-- A cache hit returns the cached address and leaves the store alone. -/
theorem loadSession_hit (cfg : SessConfig) (now : Int) (chatId : String) (st : SessionStore)
    (addr : Nat) (h : st.cache.lookup chatId = some addr) :
    loadSession cfg now chatId st = (addr, st) := by
  unfold loadSession
  rw [h]

/-- A cache miss allocates the durable (or fresh) session at the end of
the heap, caches it and evicts. -/
theorem loadSession_miss (cfg : SessConfig) (now : Int) (chatId : String) (st : SessionStore)
    (h : st.cache.lookup chatId = none) :
    loadSession cfg now chatId st
      = (st.heap.length,
          evictOldSessions cfg
            { st with
              heap := st.heap ++
                [(st.disk.lookup chatId).getD { messages := [], lastActivity := now }],
              cache := st.cache ++ [(chatId, st.heap.length)] }) := by
  unfold loadSession
  rw [h]

/-- An append to an already-cached, already-pending session only mutates
the shared session object: the scheduled save is skipped. -/
theorem addToSession_hit (cfg : SessConfig) (now : Int) (chatId : String) (role : Role)
    (content : String) (st : SessionStore) (addr : Nat)
    (hc : st.cache.lookup chatId = some addr) (hp : chatId ∈ st.pendingSaves) :
    addToSession cfg now chatId role content st
      = { st with
          heap := st.heap.set addr (appendMessage cfg now role content (heapGet st.heap addr)) } := by
  unfold addToSession
  rw [loadSession_hit cfg now chatId st addr hc]
  dsimp only
  unfold saveSession
  rw [if_pos hp]

/-- The first append to an uncached, unpending conversation: allocate,
mutate the fresh object, mark a pending save and schedule its flush. -/
theorem addToSession_fresh (cfg : SessConfig) (now : Int) (chatId : String) (role : Role)
    (content : String) (st : SessionStore)
    (hmiss : st.cache.lookup chatId = none)
    (hpend : chatId ∉ st.pendingSaves) :
    addToSession cfg now chatId role content st
      = { heap := (st.heap ++
            [(st.disk.lookup chatId).getD { messages := [], lastActivity := now }]).set
              st.heap.length
              (appendMessage cfg now role content
                ((st.disk.lookup chatId).getD { messages := [], lastActivity := now })),
          cache := (evictOldSessions cfg
            { st with
              heap := st.heap ++
                [(st.disk.lookup chatId).getD { messages := [], lastActivity := now }],
              cache := st.cache ++ [(chatId, st.heap.length)] }).cache,
          pendingSaves := st.pendingSaves ++ [chatId],
          timers := st.timers ++ [(now + 1000, chatId, st.heap.length)],
          disk := st.disk } := by
  unfold addToSession
  rw [loadSession_miss cfg now chatId st hmiss]
  dsimp only
  set s0 := (st.disk.lookup chatId).getD { messages := [], lastActivity := now } with hs0
  set stA : SessionStore :=
    { st with heap := st.heap ++ [s0], cache := st.cache ++ [(chatId, st.heap.length)] } with hstA
  have hheap : (evictOldSessions cfg stA).heap = st.heap ++ [s0] := (evict_fields cfg stA).1
  have hps : (evictOldSessions cfg stA).pendingSaves = st.pendingSaves :=
    (evict_fields cfg stA).2.1
  have htm : (evictOldSessions cfg stA).timers = st.timers := (evict_fields cfg stA).2.2.1
  have hdk : (evictOldSessions cfg stA).disk = st.disk := (evict_fields cfg stA).2.2.2
  unfold saveSession
  rw [hps, if_neg hpend]
  rw [hheap, htm, hdk, heapGet_append_self]

/-- Appends after the first, inside the debounce window: every later
`addToSession` is a cache hit whose save is skipped, so the whole run
only rewrites the one shared session object with the fold of the
appends. -/
theorem runAppends_cached (cfg : SessConfig) (chatId : String)
    (apps : List (Role × String × Int)) :
    ∀ (st : SessionStore) (addr : Nat),
      st.cache.lookup chatId = some addr → chatId ∈ st.pendingSaves →
      addr < st.heap.length →
      runAppends cfg chatId apps st
        = { st with heap := st.heap.set addr (applyAppends cfg (heapGet st.heap addr) apps) } := by
  induction apps with
  | nil =>
    intro st addr h1 h2 h3
    show st = { st with heap := st.heap.set addr (heapGet st.heap addr) }
    rw [set_heapGet_self st.heap addr h3]
  | cons a rest ih =>
    intro st addr h1 h2 h3
    show runAppends cfg chatId rest (addToSession cfg a.2.2 chatId a.1 a.2.1 st) = _
    rw [addToSession_hit cfg a.2.2 chatId a.1 a.2.1 st addr h1 h2]
    set st2 : SessionStore :=
      { st with
        heap := st.heap.set addr (appendMessage cfg a.2.2 a.1 a.2.1 (heapGet st.heap addr)) }
      with hst2
    have h3b : addr < st2.heap.length := by
      simpa [hst2] using h3
    have hrec := ih st2 addr (by simpa [hst2] using h1) (by simpa [hst2] using h2) h3b
    rw [hrec]
    have hget : heapGet st2.heap addr
        = appendMessage cfg a.2.2 a.1 a.2.1 (heapGet st.heap addr) := by
      simpa [hst2] using heapGet_set_self st.heap addr _ h3
    simp only [hst2, hget, List.set_set]
    rfl

/-- C4, amended: M ≥ 1 appends to one conversation id within one
one-second debounce window — the first at time `a0.2.2`, the rest before
the window closes — schedule exactly one durable write for that id and
write nothing durably during the window; when the window elapses, the
single write stores the session state after all the appends, provided
the loaded session is at least as recently active as every cached one
(`hact`), so that the eviction run inside `loadSession` does not discard
it and every append mutates the one object the timer captured.  Without
`hact` the claim fails: see the counterexample. -/
theorem debounce_coalesces (cfg : SessConfig) (chatId : String)
    (a0 : Role × String × Int) (rest : List (Role × String × Int)) (st : SessionStore)
    (hN : 1 ≤ cfg.maxCachedSessions)
    (hmiss : st.cache.lookup chatId = none)
    (hpend : chatId ∉ st.pendingSaves)
    (htim : ∀ t ∈ st.timers, t.2.1 ≠ chatId)
    (hvalid : ∀ e ∈ st.cache, e.2 < st.heap.length)
    (hact : ∀ e ∈ st.cache, (heapGet st.heap e.2).lastActivity
        ≤ ((st.disk.lookup chatId).getD { messages := [], lastActivity := a0.2.2 }).lastActivity)
    (hwin : ∀ a ∈ a0 :: rest, a0.2.2 ≤ a.2.2 ∧ a.2.2 < a0.2.2 + 1000) :
    ((runAppends cfg chatId (a0 :: rest) st).timers.filter
        (fun t => decide (t.2.1 = chatId))).length = 1
    ∧ (runAppends cfg chatId (a0 :: rest) st).disk = st.disk
    ∧ (runDueTimers (a0.2.2 + 1000) (runAppends cfg chatId (a0 :: rest) st)).disk.lookup chatId
        = some (applyAppends cfg
            ((st.disk.lookup chatId).getD { messages := [], lastActivity := a0.2.2 })
            (a0 :: rest)) := by
  set s0 := (st.disk.lookup chatId).getD { messages := [], lastActivity := a0.2.2 } with hs0
  set addr := st.heap.length with haddr
  set stA : SessionStore :=
    { st with heap := st.heap ++ [s0], cache := st.cache ++ [(chatId, addr)] } with hstA
  set stB : SessionStore :=
    { heap := (st.heap ++ [s0]).set addr (appendMessage cfg a0.2.2 a0.1 a0.2.1 s0),
      cache := (evictOldSessions cfg stA).cache,
      pendingSaves := st.pendingSaves ++ [chatId],
      timers := st.timers ++ [(a0.2.2 + 1000, chatId, addr)],
      disk := st.disk } with hstB
  have hfirst : addToSession cfg a0.2.2 chatId a0.1 a0.2.1 st = stB :=
    addToSession_fresh cfg a0.2.2 chatId a0.1 a0.2.1 st hmiss hpend
  have hrun : runAppends cfg chatId (a0 :: rest) st = runAppends cfg chatId rest stB := by
    show runAppends cfg chatId rest (addToSession cfg a0.2.2 chatId a0.1 a0.2.1 st) = _
    rw [hfirst]
  have hlook : stB.cache.lookup chatId = some addr := by
    rw [hstB]
    exact evict_lookup_fresh cfg stA chatId addr st.cache hN (by rw [hstA]) 
      (forall_ne_of_lookup_none st.cache chatId hmiss)
      (by
        intro e he
        have h1 : e.2 < st.heap.length := hvalid e he
        have h2 : heapGet stA.heap e.2 = heapGet st.heap e.2 := by
          rw [hstA]
          exact heapGet_append_lt st.heap [s0] e.2 h1
        have h3 : heapGet stA.heap addr = s0 := by
          rw [hstA]
          exact heapGet_append_self st.heap s0
        rw [h2, h3]
        exact hact e he)
  have haddrB : addr < stB.heap.length := by
    rw [hstB]
    simp [haddr]
  have hrest := runAppends_cached cfg chatId rest stB addr hlook
    (by rw [hstB]; exact List.mem_append_right _ (List.mem_singleton.mpr rfl)) haddrB
  have hgetB : heapGet stB.heap addr = appendMessage cfg a0.2.2 a0.1 a0.2.1 s0 := by
    rw [hstB]
    exact heapGet_set_self (st.heap ++ [s0]) addr _ (by simp [haddr])
  have hfinal : runAppends cfg chatId (a0 :: rest) st
      = { stB with
          heap := stB.heap.set addr (applyAppends cfg (appendMessage cfg a0.2.2 a0.1 a0.2.1 s0) rest) } := by
    rw [hrun, hrest, hgetB]
  refine ⟨?_, ?_, ?_⟩
  · rw [hfinal]
    show ((st.timers ++ [(a0.2.2 + 1000, chatId, addr)]).filter
        (fun t => decide (t.2.1 = chatId))).length = 1
    rw [List.filter_append]
    have h1 : st.timers.filter (fun t => decide (t.2.1 = chatId)) = [] := by
      refine List.filter_eq_nil_iff.mpr ?_
      intro t ht
      simpa using htim t ht
    rw [h1]
    simp
  · rw [hfinal]
  · rw [hfinal]
    have hts : ({ stB with
        heap := stB.heap.set addr
          (applyAppends cfg (appendMessage cfg a0.2.2 a0.1 a0.2.1 s0) rest) } : SessionStore).timers
        = st.timers ++ [(a0.2.2 + 1000, chatId, addr)] := by
      rw [hstB]
    rw [runDueTimers_lookup (a0.2.2 + 1000) _ st.timers (a0.2.2 + 1000) chatId addr hts
      (le_refl _)]
    have hget2 : heapGet (stB.heap.set addr
          (applyAppends cfg (appendMessage cfg a0.2.2 a0.1 a0.2.1 s0) rest)) addr
        = applyAppends cfg (appendMessage cfg a0.2.2 a0.1 a0.2.1 s0) rest :=
      heapGet_set_self stB.heap addr _ haddrB
    rw [hget2]
    rfl

/-- Witness for C4: two rapid appends to conversation "c" from an empty
store; firing the debounce window writes the two-message session in one
durable write. -/
theorem debounce_coalesces_witness :
    (runDueTimers (0 + 1000)
        (runAppends { maxCachedSessions := 20, maxHistory := 50 } "c"
          [(Role.user, "hi", 0), (Role.assistant, "yo", 500)] emptySessionStore)).disk.lookup "c"
      = some (applyAppends { maxCachedSessions := 20, maxHistory := 50 }
          { messages := [], lastActivity := 0 }
          [(Role.user, "hi", 0), (Role.assistant, "yo", 500)]) := by
  have h := debounce_coalesces { maxCachedSessions := 20, maxHistory := 50 } "c"
    (Role.user, "hi", 0) [(Role.assistant, "yo", 500)] emptySessionStore
    (by norm_num) (by rfl) (by simp [emptySessionStore]) (by simp [emptySessionStore])
    (by simp [emptySessionStore]) (by simp [emptySessionStore]) (by decide)
  exact h.2.2

/-- C4 counterexample: on the reachable store `stCE` — cache full of
twenty sessions more recently active than the stale durable copy of
conversation "x" — two appends to "x" inside one debounce window
schedule exactly one durable write, but the write that lands when the
window elapses holds only the first message: `loadSession` evicted the
just-loaded object (its stale `lastActivity` is minimal, and eviction
runs before `addToSession` refreshes it), so the second append mutated a
freshly reloaded object while the timer callback captured the first, and
the debounce guard suppressed a timer for the second.  The original
claim — one write containing the state after all the appends — is false
of the code. -/
theorem debounce_claim_counterexample :
    ((runAppends cfgCE "x" [(Role.user, "m1", 5000), (Role.assistant, "m2", 5500)] stCE).timers.filter (fun t => decide (t.2.1 = "x"))).length = 1
    ∧ (runDueTimers (5000 + 1000) (runAppends cfgCE "x" [(Role.user, "m1", 5000), (Role.assistant, "m2", 5500)] stCE)).disk.lookup "x" = some { messages := [{ role := Role.user, content := "m1", timestamp := 5000 }], lastActivity := 5000 }
    ∧ (runDueTimers (5000 + 1000) (runAppends cfgCE "x" [(Role.user, "m1", 5000), (Role.assistant, "m2", 5500)] stCE)).disk.lookup "x" ≠ some (applyAppends cfgCE ((stCE.disk.lookup "x").getD { messages := [], lastActivity := 5000 }) [(Role.user, "m1", 5000), (Role.assistant, "m2", 5500)]) := by
  decide

/-- An append leaves the cache exactly as the embedded load left it. -/
theorem addToSession_cache_eq (cfg : SessConfig) (now : Int) (chatId : String) (role : Role)
    (content : String) (st : SessionStore) :
    (addToSession cfg now chatId role content st).cache
      = (loadSession cfg now chatId st).2.cache := by
  unfold addToSession saveSession
  dsimp only
  split_ifs <;> rfl

/-- A load never grows the cache beyond the capacity. -/
theorem loadSession_cache_le (cfg : SessConfig) (now : Int) (chatId : String)
    (st : SessionStore) (h : st.cache.length ≤ cfg.maxCachedSessions) :
    (loadSession cfg now chatId st).2.cache.length ≤ cfg.maxCachedSessions := by
  cases hl : st.cache.lookup chatId with
  | some addr => rw [loadSession_hit cfg now chatId st addr hl]; exact h
  | none => rw [loadSession_miss cfg now chatId st hl]; exact evict_cache_length_le cfg _

/-- The capacity bound is an invariant of every operation sequence. -/
theorem runSessOps_cache_le (cfg : SessConfig) (ops : List SessOp) :
    ∀ st : SessionStore, st.cache.length ≤ cfg.maxCachedSessions →
      (runSessOps cfg ops st).cache.length ≤ cfg.maxCachedSessions := by
  induction ops with
  | nil => intro st h; exact h
  | cons op rest ih =>
    intro st h
    show (runSessOps cfg rest (runSessOp cfg st op)).cache.length ≤ cfg.maxCachedSessions
    refine ih _ ?_
    cases op with
    | load now chatId => exact loadSession_cache_le cfg now chatId st h
    | add now chatId role content =>
      show (addToSession cfg now chatId role content st).cache.length ≤ cfg.maxCachedSessions
      rw [addToSession_cache_eq]
      exact loadSession_cache_le cfg now chatId st h

/-- A key that appears in no entry is not found. -/
theorem lookup_eq_none_of_not_mem_keys {α : Type} (m : List (String × α)) (k : String)
    (h : k ∉ m.map Prod.fst) : m.lookup k = none := by
  induction m with
  | nil => rfl
  | cons p t ih =>
    have h1 : k ≠ p.1 := by
      intro hk
      exact h (by rw [hk]; exact List.mem_map_of_mem Prod.fst (List.mem_cons_self p t))
    rw [lookup_cons_of_ne p t k h1]
    exact ih (fun hm => h (by simpa using Or.inr (by simpa using hm)))

/-- Reading the element sitting right after a prefix. -/
theorem heapGet_append_mid (h0 : List Session) (x : Session) (rest : List Session) :
    heapGet (h0 ++ x :: rest) h0.length = x := by
  unfold heapGet
  rw [List.getElem?_append_right (Nat.le_refl _)]
  simp

/-- Consecutive loads of fresh, durably stored conversations, none of
which overflows the cache: the heap gains the stored sessions in order
and the cache gains their ids at consecutive addresses. -/
theorem loads_fill (cfg : SessConfig) :
    ∀ (l2 : List (String × Session)) (st : SessionStore),
      (∀ e ∈ l2, st.cache.lookup e.1 = none) →
      (∀ e ∈ l2, st.disk.lookup e.1 = some e.2) →
      (l2.map Prod.fst).Nodup →
      st.cache.length + l2.length ≤ cfg.maxCachedSessions →
      runSessOps cfg (l2.map (fun e => SessOp.load 0 e.1)) st
        = { st with heap := st.heap ++ l2.map Prod.snd,
                    cache := st.cache ++
                      (l2.map Prod.fst).zip (List.range' st.heap.length l2.length) } := by
  intro l2
  induction l2 with
  | nil =>
    intro st hca hdisk hnodup hlen
    simp [runSessOps]
  | cons e t ih =>
    intro st hca hdisk hnodup hlen
    have hmiss : st.cache.lookup e.1 = none := hca e (List.mem_cons_self e t)
    have hdiske : st.disk.lookup e.1 = some e.2 := hdisk e (List.mem_cons_self e t)
    show runSessOps cfg (t.map (fun e => SessOp.load 0 e.1))
        (loadSession cfg 0 e.1 st).2 = _
    rw [loadSession_miss cfg 0 e.1 st hmiss]
    rw [hdiske]
    set st1 : SessionStore :=
      { st with heap := st.heap ++ [e.2], cache := st.cache ++ [(e.1, st.heap.length)] }
      with hst1
    have hnoev : evictOldSessions cfg st1 = st1 := by
      refine evict_noop cfg st1 ?_
      rw [hst1]
      simp only [List.length_append, List.length_cons, List.length_nil]
      simp only [List.length_cons] at hlen
      omega
    dsimp only
    simp only [Option.getD_some]
    rw [hnoev]
    have hca2 : ∀ f ∈ t, st1.cache.lookup f.1 = none := by
      intro f hf
      rw [hst1]
      have hne : e.1 ≠ f.1 := by
        intro hh
        have : e.1 ∈ t.map Prod.fst := by rw [hh]; exact List.mem_map_of_mem Prod.fst hf
        exact (List.nodup_cons.mp hnodup).1 this
      show (st.cache ++ [(e.1, st.heap.length)]).lookup f.1 = none
      rw [lookup_append_single_ne st.cache e.1 f.1 st.heap.length hne]
      exact hca f (List.mem_cons_of_mem e hf)
    have hdisk2 : ∀ f ∈ t, st1.disk.lookup f.1 = some f.2 := by
      intro f hf
      exact hdisk f (List.mem_cons_of_mem e hf)
    have hlen2 : st1.cache.length + t.length ≤ cfg.maxCachedSessions := by
      rw [hst1]
      simp only [List.length_append, List.length_cons, List.length_nil]
      simp only [List.length_cons] at hlen
      omega
    rw [ih st1 hca2 hdisk2 (List.nodup_cons.mp hnodup).2 hlen2]
    rw [hst1]
    simp only [List.map_cons, List.length_append, List.length_cons, List.length_nil]
    rw [List.range'_succ st.heap.length t.length 1]
    simp only [List.zip_cons_cons, List.append_assoc, List.cons_append, List.nil_append]

/-- A cache entry produced by consecutive fresh loads points at the heap
copy of its own stored session. -/
theorem mem_zip_key (t : List (String × Session)) :
    ∀ (heap0 : List Session) (b : String × Nat),
      b ∈ (t.map Prod.fst).zip (List.range' heap0.length t.length) →
      ∃ s ∈ t, heapGet (heap0 ++ t.map Prod.snd) b.2 = s.2 ∧ b.1 = s.1 := by
  induction t with
  | nil => intro heap0 b hb; cases hb
  | cons e t2 ih =>
    intro heap0 b hb
    simp only [List.map_cons, List.length_cons, List.range'_succ, List.zip_cons_cons] at hb
    rcases List.mem_cons.mp hb with rfl | hb2
    · exact ⟨e, List.mem_cons_self e t2, heapGet_append_mid heap0 e.2 (t2.map Prod.snd), rfl⟩
    · have hb3 : b ∈ (t2.map Prod.fst).zip
          (List.range' (heap0 ++ [e.2]).length t2.length) := by
        simpa using hb2
      rcases ih (heap0 ++ [e.2]) b hb3 with ⟨s, hs, hget, hfst⟩
      refine ⟨s, List.mem_cons_of_mem e hs, ?_, hfst⟩
      rw [← hget]
      simp [List.append_assoc]

/-- The cache produced by consecutive fresh loads of sessions with
ascending `lastActivity` is sorted by the eviction key. -/
theorem zip_cache_sorted (t : List (String × Session)) :
    ∀ heap0 : List Session,
      List.Pairwise (fun a b : String × Session =>
        a.2.lastActivity < b.2.lastActivity) t →
      List.Pairwise (fun a b : String × Nat =>
          (heapGet (heap0 ++ t.map Prod.snd) a.2).lastActivity
            ≤ (heapGet (heap0 ++ t.map Prod.snd) b.2).lastActivity)
        ((t.map Prod.fst).zip (List.range' heap0.length t.length)) := by
  induction t with
  | nil => intro heap0 hpw; simp
  | cons e t2 ih =>
    intro heap0 hpw
    simp only [List.map_cons, List.length_cons, List.range'_succ, List.zip_cons_cons]
    refine List.Pairwise.cons ?_ ?_
    · intro b hb
      have hb3 : b ∈ (t2.map Prod.fst).zip
          (List.range' (heap0 ++ [e.2]).length t2.length) := by
        simpa using hb
      rcases mem_zip_key t2 (heap0 ++ [e.2]) b hb3 with ⟨s, hs, hget, hfst⟩
      have h1 : heapGet (heap0 ++ (e :: t2).map Prod.snd) (heap0.length) = e.2 := by
        simpa using heapGet_append_mid heap0 e.2 (t2.map Prod.snd)
      have h2 : heapGet (heap0 ++ (e :: t2).map Prod.snd) b.2 = s.2 := by
        rw [← hget]
        simp [List.append_assoc]
      simp only [List.map_cons] at h1 h2 ⊢
      rw [h1, h2]
      exact le_of_lt ((List.pairwise_cons.mp hpw).1 s hs)
    · have := ih (heap0 ++ [e.2]) (List.pairwise_cons.mp hpw).2
      simp only [List.length_append, List.length_cons, List.length_nil,
        List.append_assoc, List.cons_append, List.nil_append] at this ⊢
      exact this

/-- The stable sort of an already ascending list is the list itself. -/
theorem stableSortByKey_eq_self {α : Type} (key : α → Int) (l : List α)
    (h : List.Pairwise (fun a b => key a ≤ key b) l) : stableSortByKey key l = l := by
  have haux : ∀ (l2 acc : List α),
      (∀ a ∈ acc, ∀ b ∈ l2, key a ≤ key b) →
      List.Pairwise (fun a b => key a ≤ key b) l2 →
      l2.foldl (fun a x => insertByKey key x a) acc = acc ++ l2 := by
    intro l2
    induction l2 with
    | nil => intro acc hab hpw; simp
    | cons x xs ih =>
      intro acc hab hpw
      rw [List.foldl_cons]
      rw [insertByKey_append_last key x acc
        (fun y hy => hab y hy x (List.mem_cons_self x xs))]
      rw [ih (acc ++ [x]) ?_ (List.pairwise_cons.mp hpw).2]
      · simp
      · intro a ha b hb
        rcases List.mem_append.mp ha with ha2 | ha2
        · exact hab a ha2 b (List.mem_cons_of_mem x hb)
        · rw [List.mem_singleton.mp ha2]
          exact (List.pairwise_cons.mp hpw).1 b hb
  unfold stableSortByKey
  simpa using haux l [] (by simp) h

/-- Eviction on a cache exactly one over capacity whose entries are
already in ascending key order drops exactly the least-recently-active
head entry. -/
theorem evict_one (cfg : SessConfig) (st : SessionStore) (e0 : String × Nat)
    (tail : List (String × Nat))
    (hc : st.cache = e0 :: tail)
    (hlen : st.cache.length = cfg.maxCachedSessions + 1)
    (hsorted : List.Pairwise (fun a b : String × Nat =>
        (heapGet st.heap a.2).lastActivity ≤ (heapGet st.heap b.2).lastActivity) (e0 :: tail))
    (hne : ∀ b ∈ tail, b.1 ≠ e0.1) :
    (evictOldSessions cfg st).cache = tail := by
  obtain ⟨sheap, scache, sps, stm, sdisk⟩ := st
  simp only at hc hlen hsorted
  subst hc
  unfold evictOldSessions
  dsimp only
  rw [if_neg (by omega)]
  rw [stableSortByKey_eq_self _ _ hsorted]
  have hk : (e0 :: tail).length - cfg.maxCachedSessions = 1 := by
    simp only [List.length_cons] at hlen ⊢
    omega
  rw [hk]
  have htake : (e0 :: tail).take 1 = [e0] := rfl
  rw [htake]
  have hmap : ([e0] : List (String × Nat)).map Prod.fst = [e0.1] := rfl
  rw [hmap]
  rw [List.filter_cons_of_neg (by simp)]
  refine List.filter_eq_self.mpr ?_
  intro b hb
  simpa using hne b hb

/-- C5: the session cache is bounded and evicts correctly.  First, after
any sequence of `loadSession`/`addToSession` operations the cache holds
at most `MAX_CACHED_SESSIONS` entries.  Second, loading N+1 distinct
durably stored sessions of strictly increasing `lastActivity` into an
empty store with capacity N leaves exactly the N most recently active
ids cached, the least-recently-active one having been evicted.  Third, a
subsequent load of the evicted id transparently reloads it from durable
storage with its prior message content intact. -/
theorem session_cache_eviction (cfg : SessConfig) (first lastE : String × Session)
    (mid d : List (String × Session))
    (hN : cfg.maxCachedSessions = mid.length + 1)
    (hkeys : ((first :: (mid ++ [lastE])).map Prod.fst).Nodup)
    (hacts : List.Pairwise (fun a b : String × Session =>
        a.2.lastActivity < b.2.lastActivity) (first :: (mid ++ [lastE])))
    (hd : ∀ e ∈ first :: (mid ++ [lastE]), d.lookup e.1 = some e.2) :
    (∀ (ops : List SessOp) (st : SessionStore),
        st.cache.length ≤ cfg.maxCachedSessions →
        (runSessOps cfg ops st).cache.length ≤ cfg.maxCachedSessions)
    ∧ ((runSessOps cfg ((first :: (mid ++ [lastE])).map (fun e => SessOp.load 0 e.1))
          { emptySessionStore with disk := d }).cache.map Prod.fst
        = (mid ++ [lastE]).map Prod.fst)
    ∧ (heapGet
        (loadSession cfg 0 first.1
          (runSessOps cfg ((first :: (mid ++ [lastE])).map (fun e => SessOp.load 0 e.1))
            { emptySessionStore with disk := d })).2.heap
        (loadSession cfg 0 first.1
          (runSessOps cfg ((first :: (mid ++ [lastE])).map (fun e => SessOp.load 0 e.1))
            { emptySessionStore with disk := d })).1).messages
      = first.2.messages := by
  have hsplit : (first :: (mid ++ [lastE])) = (first :: mid) ++ [lastE] := by simp
  have hkeys2 : ((first :: mid) ++ [lastE]).map Prod.fst
      = (first :: mid).map Prod.fst ++ [lastE.1] := by simp
  have hkeysL : ((first :: mid).map Prod.fst ++ [lastE.1]).Nodup := by
    rw [← hkeys2, ← hsplit]
    exact hkeys
  have hnodupPre : ((first :: mid).map Prod.fst).Nodup :=
    hkeysL.sublist (List.sublist_append_left _ _)
  have hlastNot : lastE.1 ∉ (first :: mid).map Prod.fst := by
    intro hmem
    exact (List.disjoint_of_nodup_append hkeysL) hmem (List.mem_singleton.mpr rfl)
  set st0 : SessionStore := { emptySessionStore with disk := d } with hst0
  have hfill := loads_fill cfg (first :: mid) st0
    (by intro e he; rfl)
    (by intro e he; exact hd e (by rw [hsplit]; exact List.mem_append_left _ he))
    hnodupPre
    (by simp [hst0, emptySessionStore, hN])
  set stN : SessionStore :=
    { st0 with heap := st0.heap ++ (first :: mid).map Prod.snd,
               cache := st0.cache ++
                 ((first :: mid).map Prod.fst).zip
                   (List.range' st0.heap.length (first :: mid).length) } with hstN
  have hrunPre : runSessOps cfg ((first :: mid).map (fun e => SessOp.load 0 e.1)) st0 = stN := by
    rw [hfill]
  have hcacheN : stN.cache = ((first :: mid).map Prod.fst).zip
      (List.range' 0 (mid.length + 1)) := by
    simp [hstN, hst0, emptySessionStore]
  have hheapN : stN.heap = (first :: mid).map Prod.snd := by
    simp [hstN, hst0, emptySessionStore]
  have hkeysN : stN.cache.map Prod.fst = (first :: mid).map Prod.fst := by
    rw [hcacheN]
    exact List.map_fst_zip _ _ (by simp)
  have hrunAll : runSessOps cfg ((first :: (mid ++ [lastE])).map (fun e => SessOp.load 0 e.1))
      st0 = (loadSession cfg 0 lastE.1 stN).2 := by
    rw [hsplit, List.map_append, runSessOps, List.foldl_append]
    rw [show List.foldl (runSessOp cfg) st0 ((first :: mid).map (fun e => SessOp.load 0 e.1))
        = stN from hrunPre]
    rfl
  have hmissLast : stN.cache.lookup lastE.1 = none := by
    refine lookup_eq_none_of_not_mem_keys _ _ ?_
    rw [hkeysN]
    exact hlastNot
  have hdiskLast : stN.disk.lookup lastE.1 = some lastE.2 := by
    have : stN.disk = d := by simp [hstN, hst0, emptySessionStore]
    rw [this]
    exact hd lastE (by rw [hsplit]; exact List.mem_append_right _ (List.mem_singleton.mpr rfl))
  have hload := loadSession_miss cfg 0 lastE.1 stN hmissLast
  rw [hdiskLast] at hload
  simp only [Option.getD_some] at hload
  set stA : SessionStore :=
    { stN with heap := stN.heap ++ [lastE.2],
               cache := stN.cache ++ [(lastE.1, stN.heap.length)] } with hstA
  have hheapLen : stN.heap.length = mid.length + 1 := by
    rw [hheapN]; simp
  have hheapA : stA.heap = (first :: (mid ++ [lastE])).map Prod.snd := by
    show stN.heap ++ [lastE.2] = _
    rw [hheapN, hsplit]
    simp
  have hcacheA : stA.cache = ((first :: (mid ++ [lastE])).map Prod.fst).zip
      (List.range' 0 (mid.length + 2)) := by
    show stN.cache ++ [(lastE.1, stN.heap.length)] = _
    rw [hcacheN, hheapLen, hsplit, hkeys2]
    rw [show ((List.range' 0 (mid.length + 2)) : List Nat)
        = List.range' 0 (mid.length + 1) ++ [mid.length + 1] by
      have h9 : List.range' 0 (mid.length + 1 + 1)
          = List.range' 0 (mid.length + 1) ++ [0 + 1 * (mid.length + 1)] :=
        List.range'_concat 0 (mid.length + 1)
      simpa using h9]
    rw [List.zip_append (by simp)]
    simp
  have hpairwise : List.Pairwise (fun a b : String × Nat =>
      (heapGet stA.heap a.2).lastActivity ≤ (heapGet stA.heap b.2).lastActivity)
      stA.cache := by
    rw [hcacheA, hheapA]
    have := zip_cache_sorted (first :: (mid ++ [lastE])) [] hacts
    simpa using this
  have hcacheAshape : stA.cache = (first.1, 0) ::
      ((mid ++ [lastE]).map Prod.fst).zip (List.range' 1 (mid.length + 1)) := by
    rw [hcacheA]
    simp only [List.map_cons, List.range'_succ, List.zip_cons_cons]
  have htailne : ∀ b ∈ ((mid ++ [lastE]).map Prod.fst).zip
      (List.range' 1 (mid.length + 1)), b.1 ≠ (first.1, (0 : Nat)).1 := by
    intro b hb
    have hb1 : b.1 ∈ (mid ++ [lastE]).map Prod.fst := by
      have := List.mem_map_of_mem Prod.fst hb
      rwa [List.map_fst_zip _ _ (by simp)] at this
    intro hba
    have : first.1 ∈ (mid ++ [lastE]).map Prod.fst := by rw [← hba]; exact hb1
    have hkeys3 : (first.1 :: (mid ++ [lastE]).map Prod.fst).Nodup := by
      simpa using hkeys
    exact (List.nodup_cons.mp hkeys3).1 this
  have hevict : (evictOldSessions cfg stA).cache
      = ((mid ++ [lastE]).map Prod.fst).zip (List.range' 1 (mid.length + 1)) := by
    refine evict_one cfg stA (first.1, 0) _ hcacheAshape ?_ ?_ htailne
    · rw [hcacheAshape, hN]
      simp
    · rw [← hcacheAshape]
      exact hpairwise
  set stF : SessionStore := (loadSession cfg 0 lastE.1 stN).2 with hstF
  have hstFcache : stF.cache
      = ((mid ++ [lastE]).map Prod.fst).zip (List.range' 1 (mid.length + 1)) := by
    rw [hstF, hload]
    exact hevict
  have hstFheap : stF.heap = (first :: (mid ++ [lastE])).map Prod.snd := by
    rw [hstF, hload, ← hheapA]
    exact (evict_fields cfg stA).1
  have hstFdisk : stF.disk = d := by
    rw [hstF, hload]
    rw [(evict_fields cfg stA).2.2.2]
  refine ⟨runSessOps_cache_le cfg, ?_, ?_⟩
  · rw [hrunAll, hstFcache]
    exact List.map_fst_zip _ _ (by simp)
  · rw [hrunAll]
    have hmissF : stF.cache.lookup first.1 = none := by
      refine lookup_eq_none_of_not_mem_keys _ _ ?_
      rw [hstFcache, List.map_fst_zip _ _ (by simp)]
      intro hmem
      have hkeys3 : (first.1 :: (mid ++ [lastE]).map Prod.fst).Nodup := by
        simpa using hkeys
      exact (List.nodup_cons.mp hkeys3).1 hmem
    have hdiskF : stF.disk.lookup first.1 = some first.2 := by
      rw [hstFdisk]
      exact hd first (List.mem_cons_self _ _)
    rw [loadSession_miss cfg 0 first.1 stF hmissF]
    rw [hdiskF]
    simp only [Option.getD_some]
    rw [(evict_fields cfg _).1]
    rw [heapGet_append_self]

/-- Witness for C5 with capacity 2: loading "a", "b", "c" evicts "a",
leaves "b","c" cached, and a fourth load brings "a" back from durable
storage with its message intact. -/
theorem session_cache_eviction_witness :
    (heapGet
      (loadSession { maxCachedSessions := 2, maxHistory := 50 } 0 "a"
        (runSessOps { maxCachedSessions := 2, maxHistory := 50 }
          (witnessDisk.map (fun e => SessOp.load 0 e.1))
          { emptySessionStore with disk := witnessDisk })).2.heap
      (loadSession { maxCachedSessions := 2, maxHistory := 50 } 0 "a"
        (runSessOps { maxCachedSessions := 2, maxHistory := 50 }
          (witnessDisk.map (fun e => SessOp.load 0 e.1))
          { emptySessionStore with disk := witnessDisk })).1).messages
      = [{ role := Role.user, content := "m1", timestamp := 1 }] := by
  have h := session_cache_eviction { maxCachedSessions := 2, maxHistory := 50 }
    ("a", { messages := [{ role := Role.user, content := "m1", timestamp := 1 }], lastActivity := 1 })
    ("c", { messages := [], lastActivity := 3 })
    [("b", { messages := [], lastActivity := 2 })]
    witnessDisk
    rfl (by decide) (by decide) (by decide)
  exact h.2.2

/-- A recipient whose recorded daily timestamp already falls on the
current date is skipped by the whole daily loop, and their record is
untouched. -/
theorem dailyFold_skip (dailyOk : String → Bool) (nowMs todayStr : Int) (jid : String)
    (entries : List (String × List CalendarEvent)) :
    ∀ st : CalendarData × List (String × DigestKind),
      getDateStr ((st.1.lastDailyDigest.lookup jid).getD 0) = todayStr →
      (jid, DigestKind.daily) ∉ st.2 →
      (jid, DigestKind.daily) ∉ (entries.foldl (dailyStep dailyOk nowMs todayStr) st).2
      ∧ (entries.foldl (dailyStep dailyOk nowMs todayStr) st).1.lastDailyDigest.lookup jid
          = st.1.lastDailyDigest.lookup jid := by
  induction entries with
  | nil => intro st h1 h2; exact ⟨h2, rfl⟩
  | cons e rest ih =>
    intro st h1 h2
    rw [List.foldl_cons]
    by_cases hj : e.1 = jid
    · have hskip : dailyStep dailyOk nowMs todayStr st e = st := by
        unfold dailyStep
        dsimp only
        rw [if_pos (by rw [hj]; exact h1)]
      rw [hskip]
      exact ih st h1 h2
    · have hstep : (dailyStep dailyOk nowMs todayStr st e).1.lastDailyDigest.lookup jid
            = st.1.lastDailyDigest.lookup jid
          ∧ (jid, DigestKind.daily) ∉ (dailyStep dailyOk nowMs todayStr st e).2 := by
        unfold dailyStep
        dsimp only
        split_ifs with hc1 hc2
        · exact ⟨rfl, h2⟩
        · constructor
          · exact lookup_mapSet_ne _ e.1 jid _ hj
          · intro hmem
            rcases List.mem_append.mp hmem with hm | hm
            · exact h2 hm
            · exact hj (congrArg Prod.fst (List.mem_singleton.mp hm)).symm
        · exact ⟨rfl, h2⟩
      have hres := ih (dailyStep dailyOk nowMs todayStr st e)
        (by rw [hstep.1]; exact h1) hstep.2
      exact ⟨hres.1, by rw [hres.2, hstep.1]⟩

/-- Once a daily digest is sent to a recipient, the loop leaves their
record at the current instant. -/
theorem dailyFold_record (dailyOk : String → Bool) (nowMs todayStr : Int) (jid : String)
    (entries : List (String × List CalendarEvent)) :
    ∀ st : CalendarData × List (String × DigestKind),
      ((jid, DigestKind.daily) ∈ st.2 → st.1.lastDailyDigest.lookup jid = some nowMs) →
      ((jid, DigestKind.daily) ∈ (entries.foldl (dailyStep dailyOk nowMs todayStr) st).2 →
        (entries.foldl (dailyStep dailyOk nowMs todayStr) st).1.lastDailyDigest.lookup jid
          = some nowMs) := by
  induction entries with
  | nil => intro st hP; exact hP
  | cons e rest ih =>
    intro st hP
    rw [List.foldl_cons]
    refine ih (dailyStep dailyOk nowMs todayStr st e) ?_
    unfold dailyStep
    dsimp only
    split_ifs with hc1 hc2
    · exact hP
    · by_cases hj : e.1 = jid
      · intro hmem
        dsimp only
        rw [← hj]
        exact lookup_mapSet_self _ e.1 nowMs
      · intro hmem
        dsimp only at hmem ⊢
        rw [lookup_mapSet_ne _ e.1 jid _ hj]
        rcases List.mem_append.mp hmem with hm | hm
        · exact hP hm
        · exact absurd (congrArg Prod.fst (List.mem_singleton.mp hm)).symm hj
    · exact hP

/-- The daily loop appends one daily send per distinct recipient key it
processes. -/
theorem dailyFold_extra (dailyOk : String → Bool) (nowMs todayStr : Int)
    (entries : List (String × List CalendarEvent)) :
    ∀ st : CalendarData × List (String × DigestKind),
      ∃ extra,
        (entries.foldl (dailyStep dailyOk nowMs todayStr) st).2 = st.2 ++ extra
        ∧ (extra.map Prod.fst).Sublist (entries.map Prod.fst)
        ∧ ∀ x ∈ extra, x.2 = DigestKind.daily := by
  induction entries with
  | nil => intro st; exact ⟨[], by simp, by simp, by simp⟩
  | cons e rest ih =>
    intro st
    rw [List.foldl_cons]
    rcases ih (dailyStep dailyOk nowMs todayStr st e) with ⟨extra, he, hs, hk⟩
    have hsplit2 : (dailyStep dailyOk nowMs todayStr st e).2 = st.2
        ∨ (dailyStep dailyOk nowMs todayStr st e).2 = st.2 ++ [(e.1, DigestKind.daily)] := by
      unfold dailyStep
      dsimp only
      split_ifs <;> simp
    rcases hsplit2 with hcase | hcase
    · refine ⟨extra, by rw [he, hcase], ?_, hk⟩
      exact hs.trans (List.sublist_cons_self e.1 (rest.map Prod.fst))
    · refine ⟨(e.1, DigestKind.daily) :: extra, ?_, ?_, ?_⟩
      · rw [he, hcase, List.append_assoc]
        rfl
      · simpa using List.Sublist.cons₂ e.1 hs
      · intro x hx
        rcases List.mem_cons.mp hx with rfl | hx2
        · rfl
        · exact hk x hx2

/-- The daily loop touches only the daily records. -/
theorem dailyFold_others (dailyOk : String → Bool) (nowMs todayStr : Int)
    (entries : List (String × List CalendarEvent)) :
    ∀ st : CalendarData × List (String × DigestKind),
      (entries.foldl (dailyStep dailyOk nowMs todayStr) st).1.lastWeeklyDigest
          = st.1.lastWeeklyDigest
      ∧ (entries.foldl (dailyStep dailyOk nowMs todayStr) st).1.events = st.1.events
      ∧ (entries.foldl (dailyStep dailyOk nowMs todayStr) st).1.digestConfig
          = st.1.digestConfig := by
  induction entries with
  | nil => intro st; exact ⟨rfl, rfl, rfl⟩
  | cons e rest ih =>
    intro st
    rw [List.foldl_cons]
    have hstep : (dailyStep dailyOk nowMs todayStr st e).1.lastWeeklyDigest
          = st.1.lastWeeklyDigest
        ∧ (dailyStep dailyOk nowMs todayStr st e).1.events = st.1.events
        ∧ (dailyStep dailyOk nowMs todayStr st e).1.digestConfig = st.1.digestConfig := by
      unfold dailyStep
      dsimp only
      split_ifs <;> exact ⟨rfl, rfl, rfl⟩
    have hres := ih (dailyStep dailyOk nowMs todayStr st e)
    exact ⟨hres.1.trans hstep.1, hres.2.1.trans hstep.2.1, hres.2.2.trans hstep.2.2⟩

/-- A recipient whose weekly record is less than 23 hours old is skipped
by the whole weekly loop, and their record is untouched. -/
theorem weeklyFold_skip (weeklyOk : String → Bool) (nowMs : Int) (jid : String)
    (entries : List (String × List (Nat × List CalendarEvent))) :
    ∀ st : CalendarData × List (String × DigestKind),
      nowMs - (st.1.lastWeeklyDigest.lookup jid).getD 0 < 23 * 60 * 60 * 1000 →
      (jid, DigestKind.weekly) ∉ st.2 →
      (jid, DigestKind.weekly) ∉ (entries.foldl (weeklyStep weeklyOk nowMs) st).2
      ∧ (entries.foldl (weeklyStep weeklyOk nowMs) st).1.lastWeeklyDigest.lookup jid
          = st.1.lastWeeklyDigest.lookup jid := by
  induction entries with
  | nil => intro st h1 h2; exact ⟨h2, rfl⟩
  | cons e rest ih =>
    intro st h1 h2
    rw [List.foldl_cons]
    by_cases hj : e.1 = jid
    · have hskip : weeklyStep weeklyOk nowMs st e = st := by
        unfold weeklyStep
        dsimp only
        rw [if_pos (by rw [hj]; exact h1)]
      rw [hskip]
      exact ih st h1 h2
    · have hstep : (weeklyStep weeklyOk nowMs st e).1.lastWeeklyDigest.lookup jid
            = st.1.lastWeeklyDigest.lookup jid
          ∧ (jid, DigestKind.weekly) ∉ (weeklyStep weeklyOk nowMs st e).2 := by
        unfold weeklyStep
        dsimp only
        split_ifs with hc1 hc2
        · exact ⟨rfl, h2⟩
        · constructor
          · exact lookup_mapSet_ne _ e.1 jid _ hj
          · intro hmem
            rcases List.mem_append.mp hmem with hm | hm
            · exact h2 hm
            · exact hj (congrArg Prod.fst (List.mem_singleton.mp hm)).symm
        · exact ⟨rfl, h2⟩
      have hres := ih (weeklyStep weeklyOk nowMs st e)
        (by rw [hstep.1]; exact h1) hstep.2
      exact ⟨hres.1, by rw [hres.2, hstep.1]⟩

/-- Once a weekly digest is sent to a recipient, the loop leaves their
record at the current instant. -/
theorem weeklyFold_record (weeklyOk : String → Bool) (nowMs : Int) (jid : String)
    (entries : List (String × List (Nat × List CalendarEvent))) :
    ∀ st : CalendarData × List (String × DigestKind),
      ((jid, DigestKind.weekly) ∈ st.2 → st.1.lastWeeklyDigest.lookup jid = some nowMs) →
      ((jid, DigestKind.weekly) ∈ (entries.foldl (weeklyStep weeklyOk nowMs) st).2 →
        (entries.foldl (weeklyStep weeklyOk nowMs) st).1.lastWeeklyDigest.lookup jid
          = some nowMs) := by
  induction entries with
  | nil => intro st hP; exact hP
  | cons e rest ih =>
    intro st hP
    rw [List.foldl_cons]
    refine ih (weeklyStep weeklyOk nowMs st e) ?_
    unfold weeklyStep
    dsimp only
    split_ifs with hc1 hc2
    · exact hP
    · by_cases hj : e.1 = jid
      · intro hmem
        dsimp only
        rw [← hj]
        exact lookup_mapSet_self _ e.1 nowMs
      · intro hmem
        dsimp only at hmem ⊢
        rw [lookup_mapSet_ne _ e.1 jid _ hj]
        rcases List.mem_append.mp hmem with hm | hm
        · exact hP hm
        · exact absurd (congrArg Prod.fst (List.mem_singleton.mp hm)).symm hj
    · exact hP

/-- The weekly loop appends one weekly send per distinct recipient key
it processes. -/
theorem weeklyFold_extra (weeklyOk : String → Bool) (nowMs : Int)
    (entries : List (String × List (Nat × List CalendarEvent))) :
    ∀ st : CalendarData × List (String × DigestKind),
      ∃ extra,
        (entries.foldl (weeklyStep weeklyOk nowMs) st).2 = st.2 ++ extra
        ∧ (extra.map Prod.fst).Sublist (entries.map Prod.fst)
        ∧ ∀ x ∈ extra, x.2 = DigestKind.weekly := by
  induction entries with
  | nil => intro st; exact ⟨[], by simp, by simp, by simp⟩
  | cons e rest ih =>
    intro st
    rw [List.foldl_cons]
    rcases ih (weeklyStep weeklyOk nowMs st e) with ⟨extra, he, hs, hk⟩
    have hsplit2 : (weeklyStep weeklyOk nowMs st e).2 = st.2
        ∨ (weeklyStep weeklyOk nowMs st e).2 = st.2 ++ [(e.1, DigestKind.weekly)] := by
      unfold weeklyStep
      dsimp only
      split_ifs <;> simp
    rcases hsplit2 with hcase | hcase
    · refine ⟨extra, by rw [he, hcase], ?_, hk⟩
      exact hs.trans (List.sublist_cons_self e.1 (rest.map Prod.fst))
    · refine ⟨(e.1, DigestKind.weekly) :: extra, ?_, ?_, ?_⟩
      · rw [he, hcase, List.append_assoc]
        rfl
      · simpa using List.Sublist.cons₂ e.1 hs
      · intro x hx
        rcases List.mem_cons.mp hx with rfl | hx2
        · rfl
        · exact hk x hx2

/-- The weekly loop touches only the weekly records. -/
theorem weeklyFold_others (weeklyOk : String → Bool) (nowMs : Int)
    (entries : List (String × List (Nat × List CalendarEvent))) :
    ∀ st : CalendarData × List (String × DigestKind),
      (entries.foldl (weeklyStep weeklyOk nowMs) st).1.lastDailyDigest
          = st.1.lastDailyDigest
      ∧ (entries.foldl (weeklyStep weeklyOk nowMs) st).1.events = st.1.events := by
  induction entries with
  | nil => intro st; exact ⟨rfl, rfl⟩
  | cons e rest ih =>
    intro st
    rw [List.foldl_cons]
    have hstep : (weeklyStep weeklyOk nowMs st e).1.lastDailyDigest = st.1.lastDailyDigest
        ∧ (weeklyStep weeklyOk nowMs st e).1.events = st.1.events := by
      unfold weeklyStep
      dsimp only
      split_ifs <;> exact ⟨rfl, rfl⟩
    have hres := ih (weeklyStep weeklyOk nowMs st e)
    exact ⟨hres.1.trans hstep.1, hres.2.trans hstep.2⟩

/-- Object-key push preserves distinctness of the recipient keys. -/
theorem pushEntry_keys_nodup {α : Type} (m : List (String × List α)) (k : String) (v : α)
    (h : (m.map Prod.fst).Nodup) : ((pushEntry m k v).map Prod.fst).Nodup := by
  unfold pushEntry
  split_ifs with hany
  · have heq : (m.map (fun p => if p.1 = k then (p.1, p.2 ++ [v]) else p)).map Prod.fst
        = m.map Prod.fst := by
      rw [List.map_map]
      refine List.map_congr_left ?_
      intro p hp
      by_cases hpk : p.1 = k <;> simp [hpk]
    rw [heq]
    exact h
  · have hknot : k ∉ m.map Prod.fst := by
      intro hmem
      rcases List.mem_map.mp hmem with ⟨p, hp, hpk⟩
      have h4 : m.any (fun p => decide (p.1 = k)) = true :=
        List.any_eq_true.mpr ⟨p, hp, by simpa using hpk⟩
      exact absurd h4 (by simpa using hany)
    rw [List.map_append]
    simp [List.nodup_append, h, hknot]

/-- Nested object-key push preserves distinctness of the recipient
keys. -/
theorem pushWeekEntry_keys_nodup (m : List (String × List (Nat × List CalendarEvent)))
    (k : String) (d : Nat) (v : CalendarEvent)
    (h : (m.map Prod.fst).Nodup) : ((pushWeekEntry m k d v).map Prod.fst).Nodup := by
  unfold pushWeekEntry
  split_ifs with hany
  · have heq : (m.map (fun p => if p.1 = k then (p.1, pushDayEntry p.2 d v) else p)).map
        Prod.fst = m.map Prod.fst := by
      rw [List.map_map]
      refine List.map_congr_left ?_
      intro p hp
      by_cases hpk : p.1 = k <;> simp [hpk]
    rw [heq]
    exact h
  · have hknot : k ∉ m.map Prod.fst := by
      intro hmem
      rcases List.mem_map.mp hmem with ⟨p, hp, hpk⟩
      have h4 : m.any (fun p => decide (p.1 = k)) = true :=
        List.any_eq_true.mpr ⟨p, hp, by simpa using hpk⟩
      exact absurd h4 (by simpa using hany)
    rw [List.map_append]
    simp [List.nodup_append, h, hknot]

/-- The recipient keys of the daily collection are distinct. -/
theorem collectToday_keys_nodup (events : List CalendarEvent) (currentDay : Nat)
    (todayStr : Int) :
    ((collectTodayEvents events currentDay todayStr).map Prod.fst).Nodup := by
  unfold collectTodayEvents
  dsimp only
  rw [List.map_map]
  have hcomp : (Prod.fst ∘ fun p : String × List CalendarEvent =>
      (p.1, stableSortByKey (fun e => (e.time : Int)) p.2)) = Prod.fst := rfl
  rw [hcomp]
  have husers : ∀ (users : List CalUser) (evt : CalendarEvent)
      (acc : List (String × List CalendarEvent)), (acc.map Prod.fst).Nodup →
      ((users.foldl (fun a u => pushEntry a u.jid evt) acc).map Prod.fst).Nodup := by
    intro users
    induction users with
    | nil => intro evt acc h; exact h
    | cons u t ih =>
      intro evt acc h
      rw [List.foldl_cons]
      exact ih evt _ (pushEntry_keys_nodup acc u.jid evt h)
  have hfold : ∀ (evs : List CalendarEvent) (acc : List (String × List CalendarEvent)),
      (acc.map Prod.fst).Nodup →
      ((evs.foldl (fun acc2 evt =>
        if isEventToday evt currentDay todayStr then
          evt.taggedUsers.foldl (fun a u => pushEntry a u.jid evt) acc2
        else acc2) acc).map Prod.fst).Nodup := by
    intro evs
    induction evs with
    | nil => intro acc h; exact h
    | cons evt t ih =>
      intro acc h
      rw [List.foldl_cons]
      by_cases he : isEventToday evt currentDay todayStr
      · rw [if_pos he]
        exact ih _ (husers evt.taggedUsers evt acc h)
      · rw [if_neg he]
        exact ih acc h
  exact hfold events [] (by simp)

/-- The recipient keys of the weekly collection are distinct. -/
theorem collectWeek_keys_nodup (events : List CalendarEvent) (startDay : Nat)
    (startDateStr : Int) :
    ((collectWeekEvents events startDay startDateStr).map Prod.fst).Nodup := by
  unfold collectWeekEvents
  dsimp only
  rw [List.map_map]
  have hcomp : (Prod.fst ∘ fun p : String × List (Nat × List CalendarEvent) =>
      (p.1, p.2.map (fun q => (q.1, stableSortByKey (fun e => (e.time : Int)) q.2))))
      = Prod.fst := rfl
  rw [hcomp]
  have husers : ∀ (users : List CalUser) (day : Nat) (evt : CalendarEvent)
      (acc : List (String × List (Nat × List CalendarEvent))), (acc.map Prod.fst).Nodup →
      ((users.foldl (fun a u => pushWeekEntry a u.jid day evt) acc).map Prod.fst).Nodup := by
    intro users
    induction users with
    | nil => intro day evt acc h; exact h
    | cons u t ih =>
      intro day evt acc h
      rw [List.foldl_cons]
      exact ih day evt _ (pushWeekEntry_keys_nodup acc u.jid day evt h)
  have hevs : ∀ (evs : List CalendarEvent) (day : Nat) (dateStr : Int)
      (acc : List (String × List (Nat × List CalendarEvent))), (acc.map Prod.fst).Nodup →
      ((evs.foldl (fun acc2 evt =>
        let due : Bool :=
          match evt.recurrence with
          | .daily => true
          | .weekly => evt.dayOfWeek == some day
          | .once => evt.date == some dateStr
        if due then
          evt.taggedUsers.foldl (fun a3 u => pushWeekEntry a3 u.jid day evt) acc2
        else acc2) acc).map Prod.fst).Nodup := by
    intro evs
    induction evs with
    | nil => intro day dateStr acc h; exact h
    | cons evt t ih =>
      intro day dateStr acc h
      rw [List.foldl_cons]
      dsimp only
      by_cases hd : (match evt.recurrence with
          | Recurrence.daily => true
          | Recurrence.weekly => evt.dayOfWeek == some day
          | Recurrence.once => evt.date == some dateStr) = true
      · rw [if_pos hd]
        exact ih day dateStr _ (husers evt.taggedUsers day evt acc h)
      · rw [if_neg hd]
        exact ih day dateStr acc h
  have hdays : ∀ (ds : List Nat) (acc : List (String × List (Nat × List CalendarEvent))),
      (acc.map Prod.fst).Nodup →
      ((ds.foldl (fun acc d =>
        let day := (startDay + d) % 7
        let dateStr := startDateStr + (d : Int)
        events.foldl (fun acc2 evt =>
          let due : Bool :=
            match evt.recurrence with
            | .daily => true
            | .weekly => evt.dayOfWeek == some day
            | .once => evt.date == some dateStr
          if due then
            evt.taggedUsers.foldl (fun a3 u => pushWeekEntry a3 u.jid day evt) acc2
          else acc2) acc) acc).map Prod.fst).Nodup := by
    intro ds
    induction ds with
    | nil => intro acc h; exact h
    | cons d t ih =>
      intro acc h
      rw [List.foldl_cons]
      exact ih _ (hevs events ((startDay + d) % 7) (startDateStr + (d : Int)) acc h)
  exact hdays (List.range 7) [] (by simp)

/-- Facts carried through the weekly phase: given the state after the
daily phase — all its sends are daily, with distinct recipients, and the
skip/record facts hold — the same facts, extended with the weekly ones,
hold after the (possibly skipped) weekly loop. -/
theorem digest_tail_facts (wOk : String → Bool) (nowMs : Int) (jid : String)
    (cal : CalendarData) (st1 st2 : CalendarData × List (String × DigestKind))
    (entriesW : List (String × List (Nat × List CalendarEvent)))
    (hWkeys : (entriesW.map Prod.fst).Nodup)
    (hst2 : st2 = entriesW.foldl (weeklyStep wOk nowMs) st1 ∨ st2 = st1)
    (hdkind : ∀ x ∈ st1.2, x.2 = DigestKind.daily)
    (hdkeys : (st1.2.map Prod.fst).Nodup)
    (hdskip : getDateStr ((cal.lastDailyDigest.lookup jid).getD 0) = getDateStr nowMs →
        (jid, DigestKind.daily) ∉ st1.2)
    (hdrec : (jid, DigestKind.daily) ∈ st1.2 →
        st1.1.lastDailyDigest.lookup jid = some nowMs)
    (hdlast : (jid, DigestKind.daily) ∈ st1.2 →
        ∀ m, st1.1.lastDailyDigest.lookup jid = some m →
          st2.1.lastDailyDigest.lookup jid = some m)
    (hW : st1.1.lastWeeklyDigest = cal.lastWeeklyDigest) :
    (getDateStr ((cal.lastDailyDigest.lookup jid).getD 0) = getDateStr nowMs →
        (jid, DigestKind.daily) ∉ st2.2)
    ∧ (nowMs - (cal.lastWeeklyDigest.lookup jid).getD 0 < 23 * 60 * 60 * 1000 →
        (jid, DigestKind.weekly) ∉ st2.2)
    ∧ ((jid, DigestKind.daily) ∈ st2.2 → st2.1.lastDailyDigest.lookup jid = some nowMs)
    ∧ ((jid, DigestKind.weekly) ∈ st2.2 → st2.1.lastWeeklyDigest.lookup jid = some nowMs)
    ∧ ((st2.2.filter (fun x => decide (x.2 = DigestKind.daily))).map Prod.fst).Nodup
    ∧ ((st2.2.filter (fun x => decide (x.2 = DigestKind.weekly))).map Prod.fst).Nodup := by
  have hnW : (jid, DigestKind.weekly) ∉ st1.2 := by
    intro hm
    have := hdkind _ hm
    simp at this
  have hfd : st1.2.filter (fun x => decide (x.2 = DigestKind.daily)) = st1.2 :=
    List.filter_eq_self.mpr (fun x hx => by simp [hdkind x hx])
  have hfw : st1.2.filter (fun x => decide (x.2 = DigestKind.weekly)) = [] :=
    List.filter_eq_nil_iff.mpr (fun x hx => by simp [hdkind x hx])
  rcases hst2 with h2 | h2
  · rcases weeklyFold_extra wOk nowMs entriesW st1 with ⟨wextra, hweq, hwsub, hwkind⟩
    have hs2 : st2.2 = st1.2 ++ wextra := by rw [h2, hweq]
    have hnWextraD : ∀ x ∈ wextra, ¬ x.2 = DigestKind.daily := by
      intro x hx
      rw [hwkind x hx]
      simp
    refine ⟨?_, ?_, ?_, ?_, ?_, ?_⟩
    · intro h hm
      rw [hs2] at hm
      rcases List.mem_append.mp hm with hm1 | hm1
      · exact hdskip h hm1
      · exact hnWextraD _ hm1 rfl
    · intro h
      have hsk := weeklyFold_skip wOk nowMs jid entriesW st1 (by rw [hW]; exact h) hnW
      rw [h2]
      exact hsk.1
    · intro hm
      have hm1 : (jid, DigestKind.daily) ∈ st1.2 := by
        rw [hs2] at hm
        rcases List.mem_append.mp hm with hm1 | hm1
        · exact hm1
        · exact absurd rfl (hnWextraD _ hm1)
      exact hdlast hm1 nowMs (hdrec hm1)
    · intro hm
      rw [h2] at hm ⊢
      refine weeklyFold_record wOk nowMs jid entriesW st1 ?_ hm
      intro hm1
      exact absurd hm1 hnW
    · rw [hs2, List.filter_append, hfd,
        List.filter_eq_nil_iff.mpr (fun x hx => by simp [hwkind x hx]),
        List.append_nil]
      exact hdkeys
    · rw [hs2, List.filter_append, hfw,
        List.filter_eq_self.mpr (fun x hx => by simp [hwkind x hx]),
        List.nil_append]
      exact hwsub.nodup hWkeys
  · subst h2
    refine ⟨fun h => hdskip h, ?_, hdrec, ?_, ?_, ?_⟩
    · intro h
      exact hnW
    · intro hm
      exact absurd hm hnW
    · rw [hfd]
      exact hdkeys
    · rw [hfw]
      simp

/-- All single-run facts of the digest scheduler: per-recipient skip
conditions hold, successful sends are recorded at the current instant,
and each run sends each recipient at most one digest of each kind. -/
theorem processCalendar_facts (dOk wOk : String → Bool) (nowMs : Int) (cal : CalendarData)
    (jid : String) :
    (getDateStr ((cal.lastDailyDigest.lookup jid).getD 0) = getDateStr nowMs →
        (jid, DigestKind.daily) ∉ (processCalendarDigests dOk wOk nowMs cal).2)
    ∧ (nowMs - (cal.lastWeeklyDigest.lookup jid).getD 0 < 23 * 60 * 60 * 1000 →
        (jid, DigestKind.weekly) ∉ (processCalendarDigests dOk wOk nowMs cal).2)
    ∧ ((jid, DigestKind.daily) ∈ (processCalendarDigests dOk wOk nowMs cal).2 →
        (processCalendarDigests dOk wOk nowMs cal).1.lastDailyDigest.lookup jid = some nowMs)
    ∧ ((jid, DigestKind.weekly) ∈ (processCalendarDigests dOk wOk nowMs cal).2 →
        (processCalendarDigests dOk wOk nowMs cal).1.lastWeeklyDigest.lookup jid
          = some nowMs)
    ∧ (((processCalendarDigests dOk wOk nowMs cal).2.filter
          (fun x => decide (x.2 = DigestKind.daily))).map Prod.fst).Nodup
    ∧ (((processCalendarDigests dOk wOk nowMs cal).2.filter
          (fun x => decide (x.2 = DigestKind.weekly))).map Prod.fst).Nodup := by
  by_cases hev : cal.events.length = 0
  · have hzero : processCalendarDigests dOk wOk nowMs cal = (cal, []) := by
      unfold processCalendarDigests
      rw [if_pos hev]
    rw [hzero]
    exact ⟨by simp, by simp, by simp, by simp, by simp, by simp⟩
  · have hproc : processCalendarDigests dOk wOk nowMs cal
        = (let st2 := if getDay nowMs = cal.digestConfig.weeklyDay ∧
              isTimeWithinWindow (getTimeStr nowMs) cal.digestConfig.weeklyTime 60
            then (collectWeekEvents cal.events (getDay nowMs) (getDateStr nowMs)).foldl
              (weeklyStep wOk nowMs)
              (if isTimeWithinWindow (getTimeStr nowMs) cal.digestConfig.dailyTime 60
                then (collectTodayEvents cal.events (getDay nowMs) (getDateStr nowMs)).foldl
                  (dailyStep dOk nowMs (getDateStr nowMs))
                  ((cal, []) : CalendarData × List (String × DigestKind))
                else (cal, []))
            else (if isTimeWithinWindow (getTimeStr nowMs) cal.digestConfig.dailyTime 60
                then (collectTodayEvents cal.events (getDay nowMs) (getDateStr nowMs)).foldl
                  (dailyStep dOk nowMs (getDateStr nowMs))
                  ((cal, []) : CalendarData × List (String × DigestKind))
                else (cal, []));
          ({ st2.1 with events := cleanupPastEvents (getDateStr nowMs) st2.1.events },
            st2.2)) := by
      unfold processCalendarDigests
      rw [if_neg hev]
    rw [hproc]
    dsimp only
    set entriesD := collectTodayEvents cal.events (getDay nowMs) (getDateStr nowMs) with hED
    set entriesW := collectWeekEvents cal.events (getDay nowMs) (getDateStr nowMs) with hEW
    set st1 := if isTimeWithinWindow (getTimeStr nowMs) cal.digestConfig.dailyTime 60
        then entriesD.foldl (dailyStep dOk nowMs (getDateStr nowMs))
          ((cal, []) : CalendarData × List (String × DigestKind))
        else (cal, []) with hst1
    set st2 := if getDay nowMs = cal.digestConfig.weeklyDay ∧
          isTimeWithinWindow (getTimeStr nowMs) cal.digestConfig.weeklyTime 60
        then entriesW.foldl (weeklyStep wOk nowMs) st1 else st1 with hst2def
    have hst1facts : (∀ x ∈ st1.2, x.2 = DigestKind.daily)
        ∧ (st1.2.map Prod.fst).Nodup
        ∧ (getDateStr ((cal.lastDailyDigest.lookup jid).getD 0) = getDateStr nowMs →
            (jid, DigestKind.daily) ∉ st1.2)
        ∧ ((jid, DigestKind.daily) ∈ st1.2 →
            st1.1.lastDailyDigest.lookup jid = some nowMs)
        ∧ st1.1.lastWeeklyDigest = cal.lastWeeklyDigest := by
      rw [hst1]
      by_cases hw : isTimeWithinWindow (getTimeStr nowMs) cal.digestConfig.dailyTime 60 = true
      · rw [if_pos hw]
        rcases dailyFold_extra dOk nowMs (getDateStr nowMs) entriesD (cal, [])
          with ⟨dextra, hdeq, hdsub, hdk⟩
        have hd2 : (entriesD.foldl (dailyStep dOk nowMs (getDateStr nowMs)) (cal, [])).2
            = dextra := by simpa using hdeq
        refine ⟨?_, ?_, ?_, ?_, ?_⟩
        · rw [hd2]; exact hdk
        · rw [hd2]
          exact hdsub.nodup (by rw [hED]; exact collectToday_keys_nodup _ _ _)
        · intro h
          exact (dailyFold_skip dOk nowMs (getDateStr nowMs) jid entriesD (cal, []) h
            (by simp)).1
        · exact dailyFold_record dOk nowMs (getDateStr nowMs) jid entriesD (cal, [])
            (fun hm => absurd hm (by simp))
        · exact (dailyFold_others dOk nowMs (getDateStr nowMs) entriesD (cal, [])).1
      · rw [if_neg hw]
        exact ⟨by simp, by simp, fun _ => by simp, fun hm => absurd hm (by simp), rfl⟩
    have hst2or : st2 = entriesW.foldl (weeklyStep wOk nowMs) st1 ∨ st2 = st1 := by
      rw [hst2def]
      split_ifs with h
      · exact Or.inl rfl
      · exact Or.inr rfl
    have hdlast : (jid, DigestKind.daily) ∈ st1.2 →
        ∀ m, st1.1.lastDailyDigest.lookup jid = some m →
          st2.1.lastDailyDigest.lookup jid = some m := by
      intro _ m hm
      rcases hst2or with h2 | h2
      · rw [h2, (weeklyFold_others wOk nowMs entriesW st1).1]
        exact hm
      · rw [h2]
        exact hm
    exact digest_tail_facts wOk nowMs jid cal st1 st2 entriesW
      (by rw [hEW]; exact collectWeek_keys_nodup _ _ _) hst2or
      hst1facts.1 hst1facts.2.1 hst1facts.2.2.1 hst1facts.2.2.2.1 hdlast
      hst1facts.2.2.2.2

/-- C7: the digest check sends each recipient at most one daily and one
weekly digest per run; a recipient whose recorded lastDailyDigest falls
on the current UTC date is skipped by the daily digest and one whose
lastWeeklyDigest is less than 23 hours old is skipped by the weekly
digest; and after a run that sent a digest, any later run within the
same calendar day (daily) or 23-hour window (weekly) does not send that
recipient the same kind again. -/
theorem digest_idempotent (dOk wOk dOk2 wOk2 : String → Bool) (nowMs now2 : Int)
    (cal : CalendarData) (jid : String) :
    (getDateStr ((cal.lastDailyDigest.lookup jid).getD 0) = getDateStr nowMs →
        (jid, DigestKind.daily) ∉ (processCalendarDigests dOk wOk nowMs cal).2)
    ∧ (nowMs - (cal.lastWeeklyDigest.lookup jid).getD 0 < 23 * 60 * 60 * 1000 →
        (jid, DigestKind.weekly) ∉ (processCalendarDigests dOk wOk nowMs cal).2)
    ∧ (((processCalendarDigests dOk wOk nowMs cal).2.filter
          (fun x => decide (x.2 = DigestKind.daily))).map Prod.fst).Nodup
    ∧ (((processCalendarDigests dOk wOk nowMs cal).2.filter
          (fun x => decide (x.2 = DigestKind.weekly))).map Prod.fst).Nodup
    ∧ ((jid, DigestKind.daily) ∈ (processCalendarDigests dOk wOk nowMs cal).2 →
        getDateStr now2 = getDateStr nowMs →
        (jid, DigestKind.daily) ∉ (processCalendarDigests dOk2 wOk2 now2
          (processCalendarDigests dOk wOk nowMs cal).1).2)
    ∧ ((jid, DigestKind.weekly) ∈ (processCalendarDigests dOk wOk nowMs cal).2 →
        now2 - nowMs < 23 * 60 * 60 * 1000 →
        (jid, DigestKind.weekly) ∉ (processCalendarDigests dOk2 wOk2 now2
          (processCalendarDigests dOk wOk nowMs cal).1).2) := by
  obtain ⟨h1, h2, h3, h4, h5, h6⟩ := processCalendar_facts dOk wOk nowMs cal jid
  obtain ⟨g1, g2, -, -, -, -⟩ := processCalendar_facts dOk2 wOk2 now2
    (processCalendarDigests dOk wOk nowMs cal).1 jid
  refine ⟨h1, h2, h5, h6, ?_, ?_⟩
  · intro hm hd
    apply g1
    rw [h3 hm]
    simpa using hd.symm
  · intro hm hw
    apply g2
    rw [h4 hm]
    simpa using hw

/-- Witness for C7 on the concrete calendar `calW`: the first run at
07:00 on day 1 sends "u" both digests, and a run one minute later on the
updated calendar sends neither again. -/
theorem digest_idempotent_witness :
    ("u", DigestKind.daily) ∉ (processCalendarDigests (fun _ => true) (fun _ => true)
        111660000 (processCalendarDigests (fun _ => true) (fun _ => true) 111600000 calW).1).2
    ∧ ("u", DigestKind.weekly) ∉ (processCalendarDigests (fun _ => true) (fun _ => true)
        111660000 (processCalendarDigests (fun _ => true) (fun _ => true) 111600000 calW).1).2 := by
  have he : (processCalendarDigests (fun _ => true) (fun _ => true) 111600000 calW).2
      = [("u", DigestKind.daily), ("u", DigestKind.weekly)] := by decide
  have h := digest_idempotent (fun _ => true) (fun _ => true) (fun _ => true) (fun _ => true)
      111600000 111660000 calW "u"
  refine ⟨h.2.2.2.2.1 ?_ (by decide), h.2.2.2.2.2 ?_ (by decide)⟩
  · rw [he]
    exact List.mem_cons_self _ _
  · rw [he]
    simp
